import Mathlib

/-!
# A verification development for the resolv-ci core

This file gives a shallow embedding, in Lean 4, of the core algorithms of the
resolv-ci repository: the insight-loop orchestrator (`src/agents/graph.ts`),
the solution validation pipeline (`src/agents/solutions.ts`), the outbox
stager and dispatcher (`src/agents/actuator.ts`), the dispatch batch route,
the retrying log download (`src/app/api/graph-run/route.ts`) and the
build-failure writer (`src/lib/tidb.ts`).  Pure TypeScript functions become
Lean functions; strings are modelled character by character (`List Char`);
external collaborators (the GitHub client, the LLM, the JS regex engine,
`Math.random`, the SHA-1 routine from `node:crypto`) are passed in as
explicit function parameters; the database becomes an explicit list of rows
threaded through the operations; JS numbers are modelled as `ℚ`/`ℤ`/`ℕ` with
the source's comparisons kept verbatim.

Theorems at the end settle the behavioural claims about the code.
-/

namespace ResolvCI


/-- TypeScript strings, modelled character by character. -/
abbrev Str := List Char

/-! ## Character classes used by the source's regular expressions -/
/-- The character class `[ \t]` from `/[ \t]+/g` (`normalizeBlock`,
`collapseWS`). -/
def isSpTab (c : Char) : Bool := c = ' ' || c = '\t'

/-- Whitespace as relevant to JS `trim()` / `\s` for the strings this code
processes (space, tab, LF, CR). -/
def isWS (c : Char) : Bool := c = ' ' || c = '\t' || c = '\n' || c = '\r'

/-! ## `normalizeBlock` (src/agents/solutions.ts, lines 146-148)

`normalizeBlock(s) = s.replace(/\r\n/g, "\n").replace(/[ \t]+/g, " ").trim()`
-/
/-- `.replace(/\r\n/g, "\n")`. -/
def replCRLF : Str → Str
  | [] => []
  | [c] => [c]
  | c :: c2 :: rest =>
    if c = '\r' && c2 = '\n' then '\n' :: replCRLF rest
    else c :: replCRLF (c2 :: rest)

/-- `.replace(/[ \t]+/g, " ")`: the boolean argument records whether we are
inside a run of spaces/tabs whose first character was already emitted. -/
def collapseWSAux : Bool → Str → Str
  | _, [] => []
  | inRun, c :: rest =>
    if isSpTab c then
      if inRun then collapseWSAux true rest
      else ' ' :: collapseWSAux true rest
    else c :: collapseWSAux false rest

def collapseRuns (s : Str) : Str := collapseWSAux false s

/-- JS `String.prototype.trim()` (both ends). -/
def trimStr (s : Str) : Str :=
  ((s.dropWhile isWS).reverse.dropWhile isWS).reverse

/-- `normalizeBlock` from src/agents/solutions.ts. -/
def normalizeBlock (s : Str) : Str := trimStr (collapseRuns (replCRLF s))

/-! ## Whitespace-delimited tokens

`words s` is the list of maximal whitespace-free runs of `s`; it formalises
"the non-whitespace tokens of `s`".  The accumulator holds the current token
reversed. -/
def wordsAux : Str → Str → List Str
  | cur, [] => if cur.isEmpty then [] else [cur.reverse]
  | cur, c :: rest =>
    if isWS c then
      if cur.isEmpty then wordsAux [] rest
      else cur.reverse :: wordsAux [] rest
    else wordsAux (c :: cur) rest

def words (s : Str) : List Str := wordsAux [] s

/-! ## JS `split("\n")` / `join("\n")` -/
/-- JS `s.split("\n")`: always returns one more piece than there are `'\n'`
characters; `"".split("\n") = [""]`. -/
def splitLines : Str → List Str
  | [] => [[]]
  | c :: rest =>
    if c = '\n' then [] :: splitLines rest
    else
      match splitLines rest with
      | [] => [[c]]
      | l :: ls => (c :: l) :: ls

/-- JS `Array.prototype.join("\n")`. -/
def joinLines : List Str → Str
  | [] => []
  | [l] => l
  | l :: ls => l ++ '\n' :: joinLines ls

/-! ## The insight-loop orchestrator (src/agents/graph.ts)

State machine: `ingestion → diagnose → solutions → (diagnose | actuator) →
knowledge → END`.  `TAU` and `MAX_LOOPS` are the defaults of
`SOLUTIONS_CONFIDENCE_TAU` / `SOLUTIONS_MAX_LOOPS`.
-/

namespace Graph

/-- Default `SOLUTIONS_CONFIDENCE_TAU` (0.80). -/
def TAU : ℚ := 80 / 100

/-- Default `SOLUTIONS_MAX_LOOPS` (3). -/
def MAX_LOOPS : ℕ := 3

/-- Node names that the conditional edge after `solutions` can route to. -/
inductive GNode where
  | diagnose
  | actuator
  deriving DecidableEq, Repr

/-- The graph state channels relevant to the Decide step. -/
structure GState where
  confidence : Option ℚ
  insight_loops : ℕ
  deriving DecidableEq, Repr

/-- The conditional-edge router installed after the `solutions` node
(graph.ts lines 294-302):
`if ((s.confidence ?? 0) >= TAU) return "actuator";
 if ((s.insight_loops ?? 0) >= MAX_LOOPS) return "actuator";
 return "diagnose";` -/
def routeAfterSolutions (s : GState) : GNode :=
  if s.confidence.getD 0 ≥ TAU then GNode.actuator
  else if s.insight_loops ≥ MAX_LOOPS then GNode.actuator
  else GNode.diagnose

/-- The `solutions` node's state update (graph.ts lines 256-262): stores the
new confidence and increments `insight_loops`. -/
def solutionsNode (s : GState) (newConfidence : ℚ) : GState :=
  { confidence := some newConfidence, insight_loops := s.insight_loops + 1 }

/-- State after the `k`-th Solve iteration, for an arbitrary sequence of
confidences returned by the solution service (diagnose does not touch these
channels). -/
def stateAfter (confs : ℕ → ℚ) (init : GState) : ℕ → GState
  | 0 => init
  | k + 1 => solutionsNode (stateAfter confs init k) (confs k)

end Graph

/-! ## The solutions agent (src/agents/solutions.ts)

Data model of a proposed `Change`, the anchor resolution helpers
(`findLineFuzzy`, `nudgeAnchor`, `firstChangedHunkStart`), the validation
loop of `solveFailure` (lines 561-647), the review-comment rendering (lines
674-701), and the eligibility policy (lines 649-661).

Unified-diff patches appear here only through their `@@ -a,b +c,d @@` hunk
headers; a patch is modelled as its list of pre-parsed right-side hunk
headers `(c, d)`.  The JS regex engine used by `findLineByRegex` and the
GitHub file-content fetch are passed in as explicit functions.
-/

namespace Solutions

/-- Default `SOLUTIONS_CONFIDENCE_TAU` (0.80). -/
def TAU : ℚ := 80 / 100

/-- A backtick character (written via its code point). -/
def backtick : Char := Char.ofNat 96

/-- The right-side data `+c,d` of a unified-diff hunk header
`@@ -a,b +c,d @@`; the length is absent when the header has no `,d` part. -/
structure Hunk where
  rightStart : ℕ
  rightLen : Option ℕ
  deriving DecidableEq, Repr

/-- A unified-diff patch, modelled as its list of hunk headers in order. -/
abbrev Patch := List Hunk

inductive MatchKind where
  | exact
  | regex
  | nearest_changed_hunk
  deriving DecidableEq, Repr

/-- The `match` anchor hint of a change (`MatchSchema`). -/
structure MatchHint where
  kind : MatchKind
  original : Str
  pattern : String
  deriving DecidableEq, Repr

structure Anchor where
  line : ℕ
  deriving DecidableEq, Repr

structure Validation where
  appliesCleanly : Bool
  isNoop : Bool
  deriving DecidableEq, Repr

inductive ChangeType where
  | fix
  | diagnosis
  deriving DecidableEq, Repr

inductive Risk where
  | low
  | medium
  | high
  deriving DecidableEq, Repr

/-- A proposed edit (`Change` / `ChangeSchema`); `matchHint` is the source's
`match` field (a Lean keyword). -/
structure Change where
  path : String
  anchor : Option Anchor
  hunkAfter : Str
  language : Option String
  validation : Validation
  matchHint : Option MatchHint
  type : Option ChangeType
  deriving DecidableEq, Repr

structure Policy where
  autoSuggestionEligible : Bool
  reason : String
  deriving DecidableEq, Repr

/-! ### `stripFence` (lines 139-144) -/
/-- `[a-z0-9_-]` with the `i` flag: the code-fence language tag. -/
def isFenceTagChar (c : Char) : Bool :=
  ('a' ≤ c && c ≤ 'z') || ('A' ≤ c && c ≤ 'Z') || ('0' ≤ c && c ≤ '9') || c = '_' || c = '-'

/-- Greedy `\s*\n`: consume whitespace through the last newline of the
leading whitespace run; `none` when that run contains no newline. -/
def consumeWSThroughNewline : Str → Option Str
  | [] => none
  | c :: rest =>
    if c = '\n' then
      match consumeWSThroughNewline rest with
      | some r => some r
      | none => some rest
    else if isWS c then consumeWSThroughNewline rest
    else none

/-- `s.replace(/^```(?:suggestion|[a-z0-9_-]+)?\s*\n/i, "")` (the
`suggestion` alternative is subsumed by the tag class). -/
def stripFenceFront (s : Str) : Str :=
  match s with
  | c1 :: c2 :: c3 :: rest =>
    if c1 = backtick && c2 = backtick && c3 = backtick then
      match consumeWSThroughNewline (rest.dropWhile isFenceTagChar) with
      | some r => r
      | none => c1 :: c2 :: c3 :: rest
    else c1 :: c2 :: c3 :: rest
  | other => other

/-- `.replace(/\n```$/i, "")`. -/
def stripFenceEnd (s : Str) : Str :=
  if s.reverse.take 4 = [backtick, backtick, backtick, '\n'] then s.take (s.length - 4)
  else s

/-- `stripFence` from src/agents/solutions.ts. -/
def stripFence (s : Str) : Str := stripFenceEnd (stripFenceFront s)

/-! ### `findLineFuzzy` (lines 184-217) and friends -/
/-- Whether `pin` is a prefix of `hay`. -/
def listStartsWith : Str → Str → Bool
  | _, [] => true
  | [], _ :: _ => false
  | c :: h, d :: p => c = d && listStartsWith h p

def indexOfAux (pin : Str) : Str → ℕ → Option ℕ
  | [], i => if listStartsWith ([]) pin then some i else none
  | c :: t, i => if listStartsWith (c :: t) pin then some i else indexOfAux pin t (i + 1)

/-- JS `hay.indexOf(pin)` (0-based; `some 0` for the empty needle). -/
def indexOfSub (hay pin : Str) : Option ℕ := indexOfAux pin hay 0

/-- `.replace(/[ \t]+$/gm, "")`: strip trailing spaces/tabs on every line. -/
def stripTrailingSpTabPerLine (s : Str) : Str :=
  joinLines ((splitLines s).map (fun l => (l.reverse.dropWhile isSpTab).reverse))

/-- The local `collapseWS` of `findLineFuzzy`:
`s.replace(/[ \t]+/g, " ").trim()`. -/
def collapseWSLine (s : Str) : Str := trimStr (collapseRuns s)

/-- The multi-line whitespace-collapsed window scan of `findLineFuzzy`
(pass 2): first 1-based window position whose collapsed join equals
`target`. -/
def findWindowAux (n : ℕ) (target : Str) : List Str → ℕ → Option ℕ
  | [], i =>
    if n = 0 then (if joinLines ([] : List Str) = target then some (i + 1) else none)
    else none
  | l :: t, i =>
    if n ≤ (l :: t).length then
      if joinLines (((l :: t).take n).map collapseWSLine) = target then some (i + 1)
      else findWindowAux n target t (i + 1)
    else none

/-- `findLineFuzzy(content, needle)`: pass 1 is a literal `indexOf` after
stripping trailing whitespace per line of the needle; pass 2 is a
whitespace-collapsed search, single-line or windowed multi-line.  Returns a
1-based line. -/
def findLineFuzzy (content needle : Str) : Option ℕ :=
  if needle.isEmpty then none
  else
    let hay1 := replCRLF content
    let pin1 := stripTrailingSpTabPerLine (replCRLF needle)
    match indexOfSub hay1 pin1 with
    | some idx => some (splitLines (hay1.take idx)).length
    | none =>
      let hayLines := splitLines hay1
      let pinLines := splitLines (replCRLF needle)
      match pinLines with
      | [p] =>
        match hayLines.findIdx? (fun l => collapseWSLine l == collapseWSLine p) with
        | some i => some (i + 1)
        | none => none
      | _ =>
        findWindowAux pinLines.length (joinLines (pinLines.map collapseWSLine)) hayLines 0

/-- `nudgeAnchor` (lines 172-182): search a `±radius` window around an
approximate start with the same fuzzy matcher. -/
def nudgeAnchor (full original : Str) (start0 : ℕ) (radius : ℕ) : Option ℕ :=
  let hay := splitLines (replCRLF full)
  let start := max 1 start0
  let lo := max 1 (start - radius)
  let hi := min hay.length (start + radius)
  let windowText := joinLines ((hay.drop (lo - 1)).take (hi + 1 - lo))
  match findLineFuzzy windowText original with
  | some hit => some (lo + hit - 1)
  | none => none

/-- `findLineByRegex` (lines 220-230); the JS regex engine (`RegExp` search
returning a 1-based first-match line, `none` on no match or invalid
pattern) is the `regexEngine` parameter. -/
def findLineByRegex (regexEngine : String → Str → Option ℕ) (content : Str)
    (pattern : String) : Option ℕ :=
  if pattern.isEmpty then none else regexEngine pattern content

/-- `firstChangedHunkStart` (lines 156-162): the right-side start of the
first hunk header, clamped to ≥ 1; `none` for a null patch or a patch
without hunk headers. -/
def firstChangedHunkStart : Option Patch → Option ℕ
  | none => none
  | some [] => none
  | some (h :: _) => some (max 1 h.rightStart)

/-! ### No-op detection (solveFailure, lines 624-634) -/
/-- The current file text spanning as many lines as the proposed replacement:
`lines.slice(start - 1, Math.min(end, lines.length)).join("\n")` with
`end = start + nLines - 1` and `nLines = max 1 proposed.split("\n").length`. -/
def noopWindow (full : Str) (start : ℕ) (proposed : Str) : Str :=
  let nLines := max 1 (splitLines proposed).length
  let lines := splitLines full
  joinLines ((lines.drop (start - 1)).take nLines)

/-- `noop = normalizeBlock(current) === normalizeBlock(proposed)`. -/
def detectIsNoop (full : Str) (start : ℕ) (proposed : Str) : Bool :=
  normalizeBlock (noopWindow full start proposed) == normalizeBlock proposed

/-! ### The per-change validation loop of `solveFailure` (lines 561-647) -/
/-- The external context of one `solveFailure` validation pass: the PR's
changed files with their patches (`filesByPath`), the file contents at the
head commit (`getFileContent`), and the JS regex engine. -/
structure ResolveEnv where
  filesByPath : List (String × Option Patch)
  fileContent : String → Str
  regexFind : String → Str → Option ℕ

/-- JS falsiness/`< 1` test on the working `line` value: `!line || line < 1`
(`null` and `0` are falsy). -/
def isBadLine : Option ℕ → Bool
  | none => true
  | some l => l < 1

/-- Anchor resolution (lines 572-595): exact-hint fuzzy search with nudge,
regex hint, or fall back to the first changed hunk. -/
def resolveAnchorLine (env : ResolveEnv) (patch : Option Patch) (full : Str)
    (ch : Change) : Option ℕ :=
  let line0 := ch.anchor.map Anchor.line
  match ch.matchHint with
  | some m =>
    if m.kind == MatchKind.exact && !m.original.isEmpty then
      let line1 :=
        match findLineFuzzy full m.original with
        | some found => some found
        | none =>
          match line0 with
          | some l =>
            match nudgeAnchor full m.original l 12 with
            | some nudged => some nudged
            | none => some l
          | none => none
      if isBadLine line1 then firstChangedHunkStart patch else line1
    else if m.kind == MatchKind.regex && !m.pattern.isEmpty then
      let line1 :=
        match findLineByRegex env.regexFind full m.pattern with
        | some found => some found
        | none => line0
      if isBadLine line1 then firstChangedHunkStart patch else line1
    else
      match line0 with
      | none => firstChangedHunkStart patch
      | some l => if l ≤ 1 then firstChangedHunkStart patch else some l
  | none =>
    match line0 with
    | none => firstChangedHunkStart patch
    | some l => if l ≤ 1 then firstChangedHunkStart patch else some l

/-- The final snap (lines 602-614): for a single-line proposal, scan ±2
lines around the resolved line for a current line equal to the proposal
after `normalizeBlock`, and snap to it. -/
def finalSnap (full : Str) (hunkAfterRaw : Str) (line : Option ℕ) : Option ℕ :=
  match line with
  | none => none
  | some l =>
    if l != 0 && !hunkAfterRaw.isEmpty && !hunkAfterRaw.contains '\n' then
      let lines := splitLines (replCRLF full)
      let target := normalizeBlock hunkAfterRaw
      let l0 := max 1 (l - 2)
      let l1 := min lines.length (l + 2)
      match (List.range' l0 (l1 + 1 - l0)).find?
          (fun i => normalizeBlock (lines.getD (i - 1) []) == target) with
      | some i => some i
      | none => some l
    else some l

/-- The body of the `for (const ch of sol.changes)` loop (lines 561-647):
path-not-in-PR check, anchor resolution, final snap, unresolved-anchor
branch, no-op detection, and `type` derivation. -/
def validateChange (env : ResolveEnv) (ch : Change) : Change :=
  match List.lookup ch.path env.filesByPath with
  | none =>
    { ch with
      validation := { appliesCleanly := ch.validation.appliesCleanly, isNoop := true },
      type := some ChangeType.diagnosis }
  | some patch =>
    let full := env.fileContent ch.path
    match finalSnap full ch.hunkAfter (resolveAnchorLine env patch full ch) with
    | none =>
      { ch with
        validation := { appliesCleanly := ch.validation.appliesCleanly, isNoop := false },
        type := some ChangeType.diagnosis }
    | some l =>
      if l < 1 then
        { ch with
          validation := { appliesCleanly := ch.validation.appliesCleanly, isNoop := false },
          type := some ChangeType.diagnosis }
      else
        let proposed := stripFence ch.hunkAfter
        let noop := detectIsNoop full l proposed
        let applies := ch.validation.appliesCleanly
        let typ := if !noop && applies then ChangeType.fix else ChangeType.diagnosis
        { ch with
          anchor := some { line := l },
          hunkAfter := proposed,
          validation := { appliesCleanly := applies, isNoop := noop },
          type := some typ }

/-- `validatedChanges` accumulated over the whole change list. -/
def validateChanges (env : ResolveEnv) (changes : List Change) : List Change :=
  changes.map (validateChange env)

/-! ### Policy (lines 649-661) and `normalizeSolution` (src/lib/solution-utils.ts) -/
/-- `clamp01` from solutions.ts / solution-utils.ts. -/
def clamp01 (x : ℚ) : ℚ := max 0 (min 1 x)

/-- A change counts as a real fix iff `!isNoop && appliesCleanly`
(line 650). -/
def realFix (c : Change) : Bool := !c.validation.isNoop && c.validation.appliesCleanly

def realFixes (validatedChanges : List Change) : List Change :=
  validatedChanges.filter realFix

/-- Line 652: `confidence >= TAU && lowRisk && realFixes.length > 0`. -/
def computedAutoSuggestionEligible (confidence : ℚ) (risk : Risk)
    (validatedChanges : List Change) : Bool :=
  decide (confidence ≥ TAU) && (risk == Risk.low) &&
    decide (0 < (realFixes validatedChanges).length)

/-- The fallback policy object built on lines 656-661. -/
def fallbackPolicy (eligible : Bool) : Policy :=
  { autoSuggestionEligible := eligible,
    reason :=
      if eligible then "High confidence & low risk with clean patches."
      else "Either confidence below threshold, medium/high risk, or only diagnostics present." }

/-- Lines 653-655: the model-produced policy wins whenever its
`autoSuggestionEligible` field is present (the Zod output schema makes it
mandatory); the computed fallback is used only otherwise. -/
def solutionPolicy (solPolicy : Option Policy) (computed : Policy) : Policy :=
  match solPolicy with
  | some p => p
  | none => computed

/-- The final policy of `solveFailure` for a parsed model output carrying
`solPolicy`, raw confidence and risk, over the validated changes. -/
def solveFailurePolicy (solPolicy : Option Policy) (rawConfidence : ℚ) (risk : Risk)
    (validatedChanges : List Change) : Policy :=
  solutionPolicy solPolicy
    (fallbackPolicy (computedAutoSuggestionEligible (clamp01 rawConfidence) risk validatedChanges))

/-- `validAll` from `normalizeSolution` (src/lib/solution-utils.ts line 12):
every change applies cleanly (`isNoop` is not consulted). -/
def validAll (changes : List Change) : Bool :=
  changes.all (fun c => c.validation.appliesCleanly)

/-- `autoEligible` from `normalizeSolution` (line 14):
`confidence >= TAU && lowRisk && validAll`. -/
def normalizeSolutionAutoEligible (rawConfidence : ℚ) (risk : Risk)
    (changes : List Change) : Bool :=
  decide (clamp01 rawConfidence ≥ TAU) && (risk == Risk.low) && validAll changes

/-- The policy chosen by `normalizeSolution` (lines 16-24). -/
def normalizeSolutionPolicy (solPolicy : Option Policy) (rawConfidence : ℚ) (risk : Risk)
    (changes : List Change) : Policy :=
  match solPolicy with
  | some p => p
  | none =>
    let autoEligible := normalizeSolutionAutoEligible rawConfidence risk changes
    { autoSuggestionEligible := autoEligible,
      reason :=
        if autoEligible then "High confidence & low risk with clean patches."
        else "Confidence below threshold and/or higher risk or invalid anchors." }

/-! ### Review-comment rendering (lines 674-701) -/
structure ReviewComment where
  path : String
  line : ℕ
  body : String
  deriving DecidableEq, Repr

def codeFenceBlock (language : Option String) (code : Str) : String :=
  match language with
  | some lang => "```" ++ lang ++ "\n" ++ String.mk code ++ "\n```"
  | none => "```\n" ++ String.mk code ++ "\n```"

def diagnosticCommentBody (chg : Change) : String :=
  "🔎 **Source of error** — This is a diagnostic anchor (no code change).\n\n" ++
    codeFenceBlock chg.language chg.hunkAfter

def suggestionCommentBody (chg : Change) : String :=
  "💡 **Suggested fix**\n\n```suggestion\n" ++ String.mk chg.hunkAfter ++ "\n```"

def commentOnlyBody (chg : Change) : String :=
  "💡 **Suggested fix (comment-only; please review)**\n\n" ++
    codeFenceBlock chg.language chg.hunkAfter

/-- One entry of `reviewComments` (lines 674-701): the anchor line with a
fallback of 1, and a body that is a diagnostic note, an inline
`suggestion` block (only when the policy grants eligibility and the change
applies cleanly), or a comment-only hint. -/
def reviewCommentOfChange (policy : Policy) (chg : Change) : ReviewComment :=
  let line := (chg.anchor.map Anchor.line).getD 1
  if chg.validation.isNoop || chg.type == some ChangeType.diagnosis then
    { path := chg.path, line := line, body := diagnosticCommentBody chg }
  else if policy.autoSuggestionEligible && chg.validation.appliesCleanly then
    { path := chg.path, line := line, body := suggestionCommentBody chg }
  else
    { path := chg.path, line := line, body := commentOnlyBody chg }

def reviewCommentsOf (policy : Policy) (validatedChanges : List Change) : List ReviewComment :=
  validatedChanges.map (reviewCommentOfChange policy)

end Solutions

/-! ## The actuator (src/agents/actuator.ts)

Staging (`stageReviewOutboxFromSolution`), comment validation
(`validateReviewComments`) and dispatch (`dispatchOneOutboundAction`).
The database is an explicit list of rows; `node:crypto`'s SHA-1 is a
function parameter; JS `encodeURI` is a function parameter. -/

namespace Actuator

/-- Default `ACTUATOR_MAX_COMMENTS` (12). -/
def MAX_REVIEW_COMMENTS : ℕ := 12

/-- Default `ACTUATOR_BODY_MAX` (18000). -/
def BODY_MAX_CHARS : ℕ := 18000

/-- `clampLen` (actuator.ts lines 14-16). -/
def clampLen (s : String) (max : ℕ) : String :=
  if s.length > max then s.take max ++ "\n\n… _truncated_" else s

/-- A draft review comment travelling through the outbox payload
(`DraftComment`); JSON numbers are modelled as `ℤ`. -/
structure DraftComment where
  path : String
  line : ℤ
  body : String
  side : Option String
  deriving DecidableEq, Repr

/-- `parseUnifiedDiffMaxRightLine` (lines 20-33): fold the pre-parsed hunk
headers `@@ -a,b +c,d @@`, tracking `max (c + max 0 (d ?? 1) - 1)`; `0`
becomes `none` (`max || null`). -/
def parseUnifiedDiffMaxRightLine (hunks : Solutions.Patch) : Option ℤ :=
  let m : ℤ := hunks.foldl
    (fun acc h =>
      let start : ℤ := (h.rightStart : ℤ)
      let len : ℤ := ((h.rightLen.getD 1 : ℕ) : ℤ)
      let e := start + max 0 len - 1
      if e > acc then e else acc)
    0
  if m = 0 then none else some m

/-- The per-comment demotion test of `validateReviewComments` (lines 51-63):
path not in the diff, no patch, no parsable hunk, or line outside
`[1, maxRight]`. -/
def outsideDiff (byPath : List (String × Option Solutions.Patch)) (c : DraftComment) : Bool :=
  match List.lookup c.path byPath with
  | none => true
  | some none => true
  | some (some patch) =>
    match parseUnifiedDiffMaxRightLine patch with
    | none => true
    | some maxRight => c.line < 1 || c.line > maxRight

/-- `validateReviewComments` (lines 35-65), given the re-fetched PR file
patches `byPath`: returns `(valid, diagnostics)` in input order; valid
comments get `side` defaulted to `"RIGHT"`. -/
def validateReviewComments (byPath : List (String × Option Solutions.Patch)) :
    List DraftComment → List DraftComment × List DraftComment
  | [] => ([], [])
  | c :: rest =>
    let (v, d) := validateReviewComments byPath rest
    match List.lookup c.path byPath with
    | none => (v, c :: d)
    | some none => (v, c :: d)
    | some (some patch) =>
      match parseUnifiedDiffMaxRightLine patch with
      | none => (v, c :: d)
      | some maxRight =>
        if c.line < 1 || c.line > maxRight then (v, c :: d)
        else ({ c with side := some (c.side.getD "RIGHT") } :: v, d)

/-! ### Staging (lines 118-207) -/
/-- Minimal JSON string escaping as performed by `JSON.stringify` on the
characters that can occur here. -/
def jsonEscapeChar (c : Char) : String :=
  if c = '"' then "\\\""
  else if c = '\\' then "\\\\"
  else if c = '\n' then "\\n"
  else if c = '\r' then "\\r"
  else if c = '\t' then "\\t"
  else String.singleton c

def jsonStr (s : String) : String :=
  "\"" ++ String.join (s.toList.map jsonEscapeChar) ++ "\""

def jsonOfComment (c : DraftComment) : String :=
  "\x7b\"path\":" ++ jsonStr c.path ++ ",\"line\":" ++ toString c.line ++
    ",\"body\":" ++ jsonStr c.body ++
    (match c.side with
     | some s => ",\"side\":" ++ jsonStr s
     | none => "") ++ "\x7d"

def jsonOfComments (cs : List DraftComment) : String :=
  "[" ++ String.intercalate "," (cs.map jsonOfComment) ++ "]"

/-- `JSON.stringify({ t, owner, repo, pull_number, head_sha, body, comments })`
(lines 140-150): the deterministic idempotency-key input. -/
def hashInputString (owner repo : String) (pull_number : ℤ) (head_sha body : String)
    (comments : List DraftComment) : String :=
  "\x7b\"t\":\"pr_review\",\"owner\":" ++ jsonStr owner ++ ",\"repo\":" ++ jsonStr repo ++
    ",\"pull_number\":" ++ toString pull_number ++ ",\"head_sha\":" ++ jsonStr head_sha ++
    ",\"body\":" ++ jsonStr body ++ ",\"comments\":" ++ jsonOfComments comments ++ "\x7d"

/-- `JSON.stringify(payload)` (lines 127-136). -/
def payloadJsonString (owner repo : String) (pull_number : ℤ) (head_sha body : String)
    (comments : List DraftComment) : String :=
  "\x7b\"type\":\"pr_review\",\"owner\":" ++ jsonStr owner ++ ",\"repo\":" ++ jsonStr repo ++
    ",\"pull_number\":" ++ toString pull_number ++ ",\"head_sha\":" ++ jsonStr head_sha ++
    ",\"event\":\"COMMENT\",\"body\":" ++ jsonStr body ++
    ",\"comments\":" ++ jsonOfComments comments ++ "\x7d"

/-- One row of the `outbound_actions` table. -/
structure OutboundRow where
  id : ℕ
  action_hash : String
  action_type : String
  head_sha : String
  installation_id : Option ℤ
  payload_json : String
  status : String
  attempt_count : ℕ
  last_error : Option String
  deriving DecidableEq, Repr

inductive DbError where
  | uniqueConstraint
  | other (message : String)
  deriving DecidableEq, Repr

/-- `OutboundAction.create`: inserting a row whose unique `action_hash`
already exists raises a uniqueness violation.  New rows get the next id. -/
def createOutbound (db : List OutboundRow) (row : OutboundRow) :
    Except DbError (List OutboundRow) :=
  if db.any (fun r => r.action_hash == row.action_hash) then
    Except.error DbError.uniqueConstraint
  else Except.ok (db ++ [row])

structure StageResult where
  ok : Bool
  action_hash : Option String
  already : Bool
  error : Option String
  deriving DecidableEq, Repr

/-- `stageReviewOutboxFromSolution` (lines 118-207): cap the comments to
`MAX_REVIEW_COMMENTS`, clamp the body, build the canonical payload, hash it
with SHA-1 (the `sha1` parameter), insert; a uniqueness violation on the
hash is success (`already staged`). -/
def stagedRowOf (sha1 : String → String) (db : List OutboundRow)
    (owner repo : String) (pull_number : ℤ) (head_sha : String)
    (summaryMarkdown : String) (reviewComments : List DraftComment)
    (installation_id : Option ℤ) : OutboundRow :=
  let comments := reviewComments.take MAX_REVIEW_COMMENTS
  let body := clampLen summaryMarkdown BODY_MAX_CHARS
  { id := db.length + 1
    action_hash := sha1 (hashInputString owner repo pull_number head_sha body comments)
    action_type := "pr_review"
    head_sha := head_sha
    installation_id := installation_id
    payload_json := payloadJsonString owner repo pull_number head_sha body comments
    status := "staged"
    attempt_count := 0
    last_error := none }

def stageReviewOutboxFromSolution (sha1 : String → String) (db : List OutboundRow)
    (owner repo : String) (pull_number : ℤ) (head_sha : String)
    (summaryMarkdown : String) (reviewComments : List DraftComment)
    (installation_id : Option ℤ) : StageResult × List OutboundRow :=
  let comments := reviewComments.take MAX_REVIEW_COMMENTS
  let body := clampLen summaryMarkdown BODY_MAX_CHARS
  let action_hash := sha1 (hashInputString owner repo pull_number head_sha body comments)
  let row : OutboundRow :=
    stagedRowOf sha1 db owner repo pull_number head_sha summaryMarkdown reviewComments
      installation_id
  match createOutbound db row with
  | Except.ok db2 =>
    ({ ok := true, action_hash := some action_hash, already := false, error := none }, db2)
  | Except.error DbError.uniqueConstraint =>
    ({ ok := true, action_hash := some action_hash, already := true, error := none }, db)
  | Except.error (DbError.other m) =>
    ({ ok := false, action_hash := none, already := false, error := some m }, db)

def countRowsWithHash (db : List OutboundRow) (h : String) : ℕ :=
  (db.filter (fun r => r.action_hash == h)).length

end Actuator

/-! ### Dispatch (actuator.ts lines 245-355 and the dispatch-outbox route) -/

namespace Actuator

/-- The parsed outbox payload of a staged action. -/
structure Payload where
  type : String
  owner : String
  repo : String
  pull_number : ℤ
  head_sha : String
  event : Option String
  body : String
  comments : List DraftComment
  deriving DecidableEq, Repr

structure GitHubReviewComment where
  path : String
  line : ℤ
  side : String
  body : String
  deriving DecidableEq, Repr

/-- The single `octo.rest.pulls.createReview` call (lines 295-308). -/
structure ReviewRequest where
  owner : String
  repo : String
  pull_number : ℤ
  commit_id : String
  event : String
  body : String
  comments : List GitHubReviewComment
  deriving DecidableEq, Repr

/-- `makePermalink` (lines 68-80), called with no `endLine`; `encode` is JS
`encodeURI`. -/
def makePermalink (encode : String → String) (owner repo sha path : String)
    (startLine : ℤ) : String :=
  "https://github.com/" ++ owner ++ "/" ++ repo ++ "/blob/" ++ sha ++ "/" ++ encode path ++
    "#L" ++ toString startLine

/-- One body-level diagnostic bullet (lines 275-278). -/
def diagnosticBullet (encode : String → String) (owner repo head_sha : String)
    (d : DraftComment) : String :=
  "- 🔎 **Source of error** at [`" ++ d.path ++ ":" ++ toString d.line ++ "`](" ++
    makePermalink encode owner repo head_sha d.path d.line ++ ")\n" ++ d.body

def diagnosticsSection (encode : String → String) (owner repo head_sha : String)
    (diags : List DraftComment) : String :=
  "\n\n---\n**Diagnostics:**\n" ++
    String.intercalate "\n" (diags.map (diagnosticBullet encode owner repo head_sha))

/-- The pure core of `dispatchOneOutboundAction` for a `pr_review` payload
(lines 266-308): validate the comments against the re-fetched patches,
fold the demoted ones into the body, and build the single review-creation
call. -/
def buildReviewRequest (encode : String → String)
    (byPath : List (String × Option Solutions.Patch)) (p : Payload) :
    ReviewRequest × List DraftComment × List DraftComment :=
  let vd := validateReviewComments byPath p.comments
  let valid := vd.1
  let diagnostics := vd.2
  let body :=
    p.body ++ (if diagnostics.isEmpty then ""
               else diagnosticsSection encode p.owner p.repo p.head_sha diagnostics)
  ({ owner := p.owner
     repo := p.repo
     pull_number := p.pull_number
     commit_id := p.head_sha
     event := p.event.getD "COMMENT"
     body := body
     comments := valid.map (fun c =>
       { path := c.path, line := c.line, side := c.side.getD "RIGHT", body := c.body }) },
   valid, diagnostics)

/-- Outcome of the external review-posting call for one staged row:
success, a caught error (the `catch` of lines 327-354), or an exception
escaping `dispatchOneOutboundAction` itself (caught by the batch route). -/
inductive PostOutcome where
  | success
  | failure (message : String)
  | thrown (message : String)
  deriving DecidableEq, Repr

/-- Success bookkeeping (lines 311-323). -/
def markDispatched (r : OutboundRow) : OutboundRow :=
  { r with status := "dispatched", last_error := none }

/-- Error bookkeeping (lines 333-351): status `error`, incremented attempt
count, error text truncated to 1000 characters. -/
def markError (r : OutboundRow) (msg : String) : OutboundRow :=
  { r with
    status := "error"
    attempt_count := r.attempt_count + 1
    last_error := some (msg.take 1000) }

/-- `dispatchOneOutboundAction` (lines 258-355): non-review payloads are
skipped without a row update (`none`); otherwise the row update determined
by the post outcome; a thrown exception escapes as `Except.error`. -/
def dispatchOneOutboundAction (post : OutboundRow → PostOutcome) (r : OutboundRow) :
    Except String (Bool × Option String × Option OutboundRow) :=
  if r.action_type != "pr_review" then Except.ok (true, none, none)
  else
    match post r with
    | PostOutcome.success => Except.ok (true, none, some (markDispatched r))
    | PostOutcome.failure msg => Except.ok (false, some msg, some (markError r msg))
    | PostOutcome.thrown msg => Except.error msg

structure DispatchItemResult where
  id : ℕ
  ok : Bool
  error : Option String
  deriving DecidableEq, Repr

/-- Apply a row update keyed by id (`UPDATE ... WHERE id = :id`). -/
def updateById (db : List OutboundRow) (i : ℕ) (v : OutboundRow) : List OutboundRow :=
  db.map (fun r => if r.id = i then v else r)

/-- The `for (const row of rows)` loop of `POST /api/dispatch-outbox`
(lines 117-141 of the route): each row is dispatched independently; a
thrown error is caught, the row is marked `error` with an incremented
attempt count, and the loop continues. -/
def dispatchBatchGo (post : OutboundRow → PostOutcome) :
    List OutboundRow → List DispatchItemResult → List OutboundRow →
      List DispatchItemResult × List OutboundRow
  | [], acc, db => (acc, db)
  | r :: rest, acc, db =>
    match dispatchOneOutboundAction post r with
    | Except.ok (ok, err, upd) =>
      let db2 := match upd with
        | some v => updateById db r.id v
        | none => db
      dispatchBatchGo post rest (acc ++ [{ id := r.id, ok := ok, error := err }]) db2
    | Except.error msg =>
      dispatchBatchGo post rest (acc ++ [{ id := r.id, ok := false, error := some msg }])
        (updateById db r.id (markError r msg))

/-- `OutboundAction.findAll({ where: { status: "staged" }, order: id ASC,
limit })`; the db list is kept in id order. -/
def selectStaged (db : List OutboundRow) (limit : ℕ) : List OutboundRow :=
  (db.filter (fun r => r.status == "staged")).take limit

def dispatchBatch (post : OutboundRow → PostOutcome) (db : List OutboundRow) (limit : ℕ) :
    List DispatchItemResult × List OutboundRow :=
  dispatchBatchGo post (selectStaged db limit) [] db

/-- The row state dispatching should leave behind, determined solely by the
row's own outcome. -/
def expectedRowAfter (post : OutboundRow → PostOutcome) (r : OutboundRow) : OutboundRow :=
  if r.action_type != "pr_review" then r
  else
    match post r with
    | PostOutcome.success => markDispatched r
    | PostOutcome.failure msg => markError r msg
    | PostOutcome.thrown msg => markError r msg

/-- The per-item result determined solely by the row's own outcome. -/
def expectedItemResult (post : OutboundRow → PostOutcome) (r : OutboundRow) :
    DispatchItemResult :=
  if r.action_type != "pr_review" then { id := r.id, ok := true, error := none }
  else
    match post r with
    | PostOutcome.success => { id := r.id, ok := true, error := none }
    | PostOutcome.failure msg => { id := r.id, ok := false, error := some msg }
    | PostOutcome.thrown msg => { id := r.id, ok := false, error := some msg }

def findById (db : List OutboundRow) (i : ℕ) : Option OutboundRow :=
  db.find? (fun r => r.id = i)

end Actuator

/-! ## The tool-budget governor loop (src/agents/solutions.ts, lines 393-508)

Budget constants are the defaults of `SOL_MAX_TOOL_CALLS`, `SOL_MAX_TOOL_MS`,
`SOL_MAX_PER_TOOL_CALLS`, `SOL_MAX_PER_TOOL_MS`.  Elapsed wall-clock time
(`Date.now() - started`) is modelled as the accumulated tool execution time
carried in the state; the actual tool executions (GitHub calls) are the
`exec` parameter, returning the serialized result, its duration, and
whether the result object carries an `error` field. -/

namespace ToolLoop

def MAX_TOOL_CALLS : ℕ := 6

def MAX_TOOL_MS : ℕ := 10000

def MAX_PER_TOOL_CALLS : ℕ := 3

def MAX_PER_TOOL_MS : ℕ := 5000

/-- A tool request emitted by the model (`tc` in the source); the upstream
protocol's `id` is optional in the message type. -/
structure ToolCall where
  name : String
  id : Option String
  args : String
  deriving DecidableEq, Repr

/-- A `ToolMessage` reply appended to the conversation. -/
structure ToolMsg where
  tool_call_id : String
  content : String
  deriving DecidableEq, Repr

/-- One entry of `toolInvocations` (`ToolInvocation` in
src/types/fix_recommendation_list.ts). -/
structure ToolUse where
  name : String
  args_json : String
  ms : ℕ
  ok : Bool
  deriving DecidableEq, Repr

def lookupCount (m : List (String × ℕ)) (k : String) : ℕ :=
  (List.lookup k m).getD 0

def upsert (m : List (String × ℕ)) (k : String) (v : ℕ) : List (String × ℕ) :=
  match m with
  | [] => [(k, v)]
  | (k0, v0) :: t => if k0 = k then (k0, v) :: t else (k0, v0) :: upsert t k v

/-- `safePreview` (solutions.ts lines 760-766). -/
def safePreview (s : String) (max : ℕ) : String :=
  if s.length > max then s.take max ++ "… (truncated, " ++ toString (s.length - max) ++ " more chars)"
  else s

/-- The mutable loop bookkeeping of `solveFailure` (lines 393-398). -/
structure LoopState where
  toolCalls : ℕ
  elapsedMs : ℕ
  toolCounts : List (String × ℕ)
  toolTimeMs : List (String × ℕ)
  toolMessages : List ToolMsg
  toolInvocations : List ToolUse
  deriving DecidableEq, Repr

def initState : LoopState :=
  { toolCalls := 0, elapsedMs := 0, toolCounts := [], toolTimeMs := [],
    toolMessages := [], toolInvocations := [] }

/-- The synthesized `budget_exhausted` placeholder result (lines 426-440). -/
def budgetExhaustedContent (globalCalls globalMs callsForTool timeForTool : ℕ) : String :=
  "\x7b\"error\":\"budget_exhausted\",\"used\":\x7b\"global_calls\":" ++ toString globalCalls ++
    ",\"global_ms\":" ++ toString globalMs ++
    ",\"tool_calls\":" ++ toString callsForTool ++
    ",\"tool_ms\":" ++ toString timeForTool ++
    "\x7d,\"limits\":\x7b\"global_calls\":" ++ toString MAX_TOOL_CALLS ++
    ",\"global_ms\":" ++ toString MAX_TOOL_MS ++
    ",\"tool_calls\":" ++ toString MAX_PER_TOOL_CALLS ++
    ",\"tool_ms\":" ++ toString MAX_PER_TOOL_MS ++ "\x7d\x7d"

/-- The global budget test of line 421. -/
def globalOver (st : LoopState) : Bool :=
  st.toolCalls ≥ MAX_TOOL_CALLS || st.elapsedMs ≥ MAX_TOOL_MS

/-- The per-tool budget test of line 422. -/
def perToolOver (st : LoopState) (name : String) : Bool :=
  lookupCount st.toolCounts name ≥ MAX_PER_TOOL_CALLS ||
    lookupCount st.toolTimeMs name ≥ MAX_PER_TOOL_MS

/-- The body of the `for (const tc of calls)` loop (lines 411-501): budget
check, execute or synthesize `budget_exhausted`, record usage, and reply
with a `ToolMessage` — but only when the request carries an id
(line 491). -/
def processToolCall (exec : ToolCall → String × ℕ × Bool) (st : LoopState)
    (tc : ToolCall) : LoopState :=
  let callsForTool := lookupCount st.toolCounts tc.name
  let timeForTool := lookupCount st.toolTimeMs tc.name
  let res :=
    if globalOver st || perToolOver st tc.name then
      (budgetExhaustedContent st.toolCalls st.elapsedMs callsForTool timeForTool, 0, true)
    else exec tc
  let content := res.1
  let ms := res.2.1
  let isErr := res.2.2
  let st1 : LoopState :=
    { st with
      toolInvocations := st.toolInvocations ++
        [{ name := tc.name, args_json := safePreview tc.args 2000, ms := ms, ok := !isErr }]
      toolCounts := upsert st.toolCounts tc.name (callsForTool + 1)
      toolTimeMs := upsert st.toolTimeMs tc.name (timeForTool + ms)
      toolCalls := st.toolCalls + 1
      elapsedMs := st.elapsedMs + ms }
  match tc.id with
  | some i => { st1 with toolMessages := st1.toolMessages ++ [{ tool_call_id := i, content := content }] }
  | none => st1

/-- The whole inner for-loop over one assistant message's tool calls. -/
def processToolCalls (exec : ToolCall → String × ℕ × Bool) :
    LoopState → List ToolCall → LoopState
  | st, [] => st
  | st, tc :: rest => processToolCalls exec (processToolCall exec st tc) rest

end ToolLoop

/-! ## Retry and backoff (src/app/api/graph-run/route.ts, src/lib/tidb.ts)

`downloadLogsZipWithRetry` with `isTransientGitHubError`; the LLM client
retry configuration of solutions.ts; and the transient-retry loop of
`logBuildFailure` in tidb.ts.  One download attempt (run lookup + download
+ buffer conversion) is an oracle from the attempt number to its outcome;
`Math.random()`-based jitter is the `jitter` parameter. -/

namespace Retry

/-- Default `LOG_MAX_RETRIES` (3). -/
def LOG_MAX_RETRIES : ℕ := 3

/-- Default `LOG_RETRY_BASE_MS` (1000). -/
def LOG_RETRY_BASE_MS : ℕ := 1000

/-- An error from the GitHub client: optional HTTP status, optional
network-level `code`, message. -/
structure GhError where
  status : Option ℤ
  code : Option String
  message : String
  deriving DecidableEq, Repr

def containsSub (hay pin : Str) : Bool := (Solutions.indexOfSub hay pin).isSome

/-- Case-insensitive substring test (a fixed-alternative regex with the `i`
flag). -/
def containsCI (hay pin : String) : Bool :=
  containsSub (hay.toList.map Char.toUpper) (pin.toList.map Char.toUpper)

/-- Case-sensitive substring test (a fixed-alternative regex without `i`). -/
def containsCS (hay pin : String) : Bool :=
  containsSub hay.toList pin.toList

/-- `isTransientGitHubError` (route.ts lines 303-313): 429/5xx, 404, or a
connection-reset/timeout code. -/
def isTransientGitHubError (e : GhError) : Bool :=
  (match e.status with
   | some s => s = 429 || s = 500 || s = 502 || s = 503 || s = 504 || s = 404
   | none => false) ||
  (match e.code with
   | some c => containsCI c "ETIMEDOUT" || containsCI c "ECONNRESET" || containsCI c "EAI_AGAIN"
   | none => false)

/-- A downloaded logs archive (bytes). -/
abbrev Buf := List ℕ

/-- One attempt of the `try` block (lines 378-392): the oracle's outcome,
with the `Empty logs archive` throw for an empty buffer (a plain `Error`,
carrying neither status nor code). -/
def downloadAttemptResult (oracle : ℕ → Except GhError Buf) (attempt : ℕ) :
    Except GhError Buf :=
  match oracle attempt with
  | Except.ok buf =>
    if buf.isEmpty then
      Except.error { status := none, code := none, message := "Empty logs archive" }
    else Except.ok buf
  | Except.error e => Except.error e

/-- `LOG_RETRY_BASE_MS * Math.pow(2, attempt - 1) + Math.floor(Math.random() * 250)`
(line 401). -/
def computeBackoff (jitter : ℕ → ℕ) (attempt : ℕ) : ℕ :=
  LOG_RETRY_BASE_MS * 2 ^ (attempt - 1) + jitter attempt

/-- The retry loop of `downloadLogsZipWithRetry` (lines 368-410); returns
the final outcome together with the list of backoff delays slept.  The
fuel is the number of attempts remaining. -/
def downloadGo (oracle : ℕ → Except GhError Buf) (jitter : ℕ → ℕ) :
    ℕ → ℕ → Except GhError Buf × List ℕ
  | _, 0 =>
    (Except.error
      { status := none
        code := none
        message := "downloadLogsZipWithRetry: failed with unknown error" }, [])
  | attempt, fuel + 1 =>
    match downloadAttemptResult oracle attempt with
    | Except.ok buf => (Except.ok buf, [])
    | Except.error e =>
      let transient := isTransientGitHubError e
      let isLast := attempt == LOG_MAX_RETRIES
      if !transient || isLast then (Except.error e, [])
      else
        let rec2 := downloadGo oracle jitter (attempt + 1) fuel
        (rec2.1, computeBackoff jitter attempt :: rec2.2)

def downloadLogsZipWithRetry (oracle : ℕ → Except GhError Buf) (jitter : ℕ → ℕ) :
    Except GhError Buf × List ℕ :=
  downloadGo oracle jitter 1 LOG_MAX_RETRIES

/-- Constructor parameters of the two `ChatOpenAI` clients in `solveFailure`
(solutions.ts lines 346-351 and 512-517). -/
structure ChatOpenAIParams where
  model : String
  temperature : ℚ
  timeoutMs : ℕ
  maxRetries : ℕ
  deriving DecidableEq, Repr

/-- The tool-loop LLM client: `timeout: 20_000, maxRetries: 2`. -/
def solveLoopChatParams : ChatOpenAIParams :=
  { model := "gpt-4o-mini", temperature := 0, timeoutMs := 20000, maxRetries := 2 }

/-- The final structured-output LLM client: `timeout: 15_000, maxRetries: 1`. -/
def finalChatParams : ChatOpenAIParams :=
  { model := "gpt-4o-mini", temperature := 0, timeoutMs := 15000, maxRetries := 1 }

end Retry

/-! ## `logBuildFailure` (src/lib/tidb.ts): DB writes retry transient errors -/

namespace Tidb

inductive DbErrKind where
  | connection
  | database
  | uniqueConstraint
  | otherKind
  deriving DecidableEq, Repr

/-- A sequelize error: its class, its `parent.code`/`code`, its message. -/
structure DbErr where
  kind : DbErrKind
  code : Option String
  message : String
  deriving DecidableEq, Repr

/-- `isTransient` (tidb.ts): `ConnectionError`, a reset/timeout/connection-
lost code, or a deadlock/lock-wait-timeout `DatabaseError`. -/
def isTransient (e : DbErr) : Bool :=
  (e.kind == DbErrKind.connection) ||
  (match e.code with
   | some c => Retry.containsCS c "ECONNRESET" || Retry.containsCS c "ETIMEDOUT" ||
       Retry.containsCS c "PROTOCOL_CONNECTION_LOST"
   | none => false) ||
  (e.kind == DbErrKind.database &&
    (Retry.containsCI e.message "Deadlock" || Retry.containsCI e.message "Lock wait timeout"))

/-- `MAX_RETRIES` inside `logBuildFailure` (3). -/
def MAX_RETRIES : ℕ := 3

/-- The `while (true)` insert loop of `logBuildFailure` (runId path): retry
transient errors until `attempt >= MAX_RETRIES`.  The oracle maps the
0-based attempt index to `none` (insert succeeded) or the raised error; the
result carries the number of insert attempts performed. -/
def logBuildFailureGo (insertOutcome : ℕ → Option DbErr) : ℕ → ℕ → Except DbErr ℕ
  | _, 0 => Except.error { kind := DbErrKind.otherKind, code := none, message := "unreachable" }
  | attempt, fuel + 1 =>
    match insertOutcome attempt with
    | none => Except.ok (attempt + 1)
    | some e =>
      if !isTransient e || (attempt + 1) ≥ MAX_RETRIES then Except.error e
      else logBuildFailureGo insertOutcome (attempt + 1) fuel

def logBuildFailure (insertOutcome : ℕ → Option DbErr) : Except DbErr ℕ :=
  logBuildFailureGo insertOutcome 0 MAX_RETRIES

end Tidb

/-- A trivial environment: no PR files, empty file contents, a regex engine
that never matches. -/
def envEmpty : Solutions.ResolveEnv :=
  { filesByPath := [], fileContent := fun _ => [], regexFind := fun _ _ => none }

/-- A sample change proposing `x` for a path that is not in the PR. -/
def sampleChange : Solutions.Change :=
  { path := "a.ts", anchor := none, hunkAfter := ['x'], language := none,
    validation := { appliesCleanly := true, isNoop := false },
    matchHint := none, type := none }

/-- The canonical staged hash: SHA-1 of the serialized
(type, owner, repo, PR, head, clamped body, capped comments). -/
def stagedHash (sha1 : String → String) (owner repo : String) (pull_number : ℤ)
    (head_sha summaryMarkdown : String) (reviewComments : List Actuator.DraftComment) : String :=
  sha1 (Actuator.hashInputString owner repo pull_number head_sha
    (Actuator.clampLen summaryMarkdown Actuator.BODY_MAX_CHARS)
    (reviewComments.take Actuator.MAX_REVIEW_COMMENTS))

/-- An id-less tool request leaves no reply behind. -/
def execStub : ToolLoop.ToolCall → String × ℕ × Bool := fun _ => ("\x7b\x7d", 1, false)

/-- The db state after one item, determined solely by that item's own
outcome. -/
def dbAfterOne (post : Actuator.OutboundRow → Actuator.PostOutcome)
    (r : Actuator.OutboundRow) (db : List Actuator.OutboundRow) : List Actuator.OutboundRow :=
  if r.action_type != "pr_review" then db
  else Actuator.updateById db r.id (Actuator.expectedRowAfter post r)

/-- A post oracle that throws for row id 2 and succeeds elsewhere. -/
def batchPost : Actuator.OutboundRow → Actuator.PostOutcome := fun r =>
  if r.id = 2 then Actuator.PostOutcome.thrown "boom" else Actuator.PostOutcome.success

/-- A staged `pr_review` row with the given id. -/
def rowStaged (i : ℕ) : Actuator.OutboundRow :=
  { id := i, action_hash := toString i, action_type := "pr_review", head_sha := "h",
    installation_id := none, payload_json := "", status := "staged", attempt_count := 0,
    last_error := none }

/-- A transient DB error on the first insert attempt, then success. -/
def dbInsertOutcome0 : ℕ → Option Tidb.DbErr := fun k =>
  if k = 0 then
    some { kind := Tidb.DbErrKind.otherKind, code := some "ECONNRESET", message := "read ECONNRESET" }
  else none

/-- A download oracle: 503 on the first attempt, success afterwards. -/
def dlOracle0 : ℕ → Except Retry.GhError Retry.Buf := fun k =>
  if k = 1 then Except.error { status := some 503, code := none, message := "Service Unavailable" }
  else Except.ok [1]

/-! ## Lemmas and claim theorems -/

theorem isWS_of_isSpTab {c : Char} (h : isSpTab c = true) : isWS c = true := by
  simp only [isSpTab, Bool.or_eq_true, decide_eq_true_eq] at h
  simp only [isWS, Bool.or_eq_true, decide_eq_true_eq]
  tauto

theorem wordsAux_ws (cur : Str) {c : Char} (rest : Str) (h : isWS c = true) :
    wordsAux cur (c :: rest) =
      if cur.isEmpty then wordsAux [] rest else cur.reverse :: wordsAux [] rest := by
  simp [wordsAux, h]

theorem wordsAux_not_ws (cur : Str) {c : Char} (rest : Str) (h : isWS c = false) :
    wordsAux cur (c :: rest) = wordsAux (c :: cur) rest := by
  simp [wordsAux, h]

/-- Replacing CRLF by LF does not change the token list. -/
theorem wordsAux_replCRLF (s : Str) : ∀ cur, wordsAux cur (replCRLF s) = wordsAux cur s := by
  induction s using replCRLF.induct with
  | case1 => intro cur; rfl
  | case2 c => intro cur; rfl
  | case3 c c2 rest h ih =>
    intro cur
    have hc : c = '\r' := by
      have := h; simp only [Bool.and_eq_true, decide_eq_true_eq] at this; exact this.1
    have hc2 : c2 = '\n' := by
      have := h; simp only [Bool.and_eq_true, decide_eq_true_eq] at this; exact this.2
    subst hc; subst hc2
    rw [replCRLF, if_pos h]
    rw [wordsAux_ws cur _ (by decide), wordsAux_ws cur _ (by decide),
      wordsAux_ws ([]) _ (by decide)]
    simp only [List.isEmpty_nil, if_true, ih]
  | case4 c c2 rest h ih =>
    intro cur
    rw [replCRLF, if_neg (by simp [h])]
    by_cases hws : isWS c = true
    · rw [wordsAux_ws cur _ hws, wordsAux_ws cur _ hws]
      by_cases hcur : cur.isEmpty
      · simp only [hcur, if_true]; exact ih []
      · simp only [hcur, if_false]; rw [ih []]
    · have hws' : isWS c = false := by
        cases hb : isWS c
        · rfl
        · exact absurd hb hws
      rw [wordsAux_not_ws cur _ hws', wordsAux_not_ws cur _ hws']
      exact ih _

/-- Collapsing runs of spaces/tabs to a single space does not change the
token list, provided the accumulator is empty whenever we are mid-run. -/
theorem wordsAux_collapseWSAux :
    ∀ (s : Str) (b : Bool) (cur : Str), (b = true → cur = []) →
      wordsAux cur (collapseWSAux b s) = wordsAux cur s := by
  intro s
  induction s with
  | nil => intro b cur _; rfl
  | cons c rest ih =>
    intro b cur hb
    by_cases hsp : isSpTab c = true
    · have hws := isWS_of_isSpTab hsp
      cases b with
      | true =>
        have hcur : cur = [] := hb rfl
        subst hcur
        rw [collapseWSAux]
        simp only [hsp, if_true]
        rw [ih true [] (fun _ => rfl), wordsAux_ws ([]) rest hws]
        simp
      | false =>
        rw [collapseWSAux]
        simp only [hsp, if_true, Bool.false_eq_true, if_false]
        rw [wordsAux_ws cur _ (by decide : isWS ' ' = true), wordsAux_ws cur rest hws]
        rw [ih true [] (fun _ => rfl)]
    · have hsp' : isSpTab c = false := by
        cases hx : isSpTab c
        · rfl
        · exact absurd hx hsp
      rw [collapseWSAux]
      simp only [hsp', Bool.false_eq_true, if_false]
      by_cases hws : isWS c = true
      · rw [wordsAux_ws cur _ hws, wordsAux_ws cur rest hws]
        rw [ih false [] (by intro h; cases h)]
      · have hws' : isWS c = false := by
          cases hx : isWS c
          · rfl
          · exact absurd hx hws
        rw [wordsAux_not_ws cur _ hws', wordsAux_not_ws cur rest hws']
        exact ih false (c :: cur) (by intro h; cases h)

/-- Dropping leading whitespace does not change the token list. -/
theorem wordsAux_dropWhile_ws (s : Str) : wordsAux [] (s.dropWhile isWS) = wordsAux [] s := by
  induction s with
  | nil => rfl
  | cons c rest ih =>
    rw [List.dropWhile_cons]
    by_cases hws : isWS c = true
    · simp only [hws, if_true]
      rw [ih, wordsAux_ws ([]) rest hws]
      simp
    · have hws' : isWS c = false := by
        cases hx : isWS c
        · rfl
        · exact absurd hx hws
      simp only [hws', Bool.false_eq_true, if_false]

/-- On an all-whitespace string, `wordsAux` just flushes the accumulator. -/
theorem wordsAux_all_ws :
    ∀ (w : Str), (∀ c ∈ w, isWS c = true) → ∀ cur : Str,
      wordsAux cur w = if cur.isEmpty then [] else [cur.reverse] := by
  intro w
  induction w with
  | nil => intro _ cur; rfl
  | cons c rest ih =>
    intro hw cur
    have hc : isWS c = true := hw c (List.mem_cons_self _ _)
    rw [wordsAux_ws cur rest hc]
    have hrest := ih (fun d hd => hw d (List.mem_cons_of_mem _ hd))
    by_cases hcur : cur.isEmpty
    · simp only [hcur, if_true]
      rw [hrest ([])]
      rfl
    · simp only [hcur, Bool.false_eq_true, if_false]
      rw [hrest ([])]
      simp [hcur]

/-- Appending trailing whitespace does not change the token list. -/
theorem wordsAux_append_ws (w : Str) (hw : ∀ c ∈ w, isWS c = true) :
    ∀ (s : Str) (cur : Str), wordsAux cur (s ++ w) = wordsAux cur s := by
  intro s
  induction s with
  | nil =>
    intro cur
    rw [List.nil_append, wordsAux_all_ws w hw cur]
    rfl
  | cons c rest ih =>
    intro cur
    rw [List.cons_append]
    by_cases hws : isWS c = true
    · rw [wordsAux_ws cur _ hws, wordsAux_ws cur rest hws, ih ([])]
    · have hws' : isWS c = false := by
        cases hx : isWS c
        · rfl
        · exact absurd hx hws
      rw [wordsAux_not_ws cur _ hws', wordsAux_not_ws cur rest hws', ih (c :: cur)]

/-- JS `trim()` does not change the token list. -/
theorem words_trimStr (s : Str) : words (trimStr s) = words s := by
  unfold trimStr words
  have h1 : wordsAux ([]) (s.dropWhile isWS) = wordsAux ([]) s := wordsAux_dropWhile_ws s
  set t := s.dropWhile isWS with ht
  have hsplit : (t.reverse.dropWhile isWS).reverse ++ (t.reverse.takeWhile isWS).reverse = t := by
    rw [← List.reverse_append, List.takeWhile_append_dropWhile, List.reverse_reverse]
  have hwmem : ∀ c ∈ (t.reverse.takeWhile isWS).reverse, isWS c = true := by
    intro c hc
    rw [List.mem_reverse] at hc
    exact List.mem_takeWhile_imp hc
  calc wordsAux ([]) ((t.reverse.dropWhile isWS).reverse)
      = wordsAux ([]) ((t.reverse.dropWhile isWS).reverse ++ (t.reverse.takeWhile isWS).reverse) :=
        (wordsAux_append_ws _ hwmem _ ([])).symm
    _ = wordsAux ([]) t := by rw [hsplit]
    _ = wordsAux ([]) s := h1

/-- `normalizeBlock` preserves the whitespace-delimited token list: two
strings with equal normalisations have equal non-whitespace tokens. -/
theorem words_normalizeBlock (s : Str) : words (normalizeBlock s) = words s := by
  unfold normalizeBlock collapseRuns
  rw [words_trimStr]
  unfold words
  rw [wordsAux_collapseWSAux _ false ([]) (by intro h; cases h), wordsAux_replCRLF]

theorem splitLines_ne_nil (s : Str) : splitLines s ≠ [] := by
  induction s with
  | nil => simp [splitLines]
  | cons c rest ih =>
    rw [splitLines]
    by_cases hc : c = '\n'
    · simp [hc]
    · simp only [hc, if_false]
      cases hr : splitLines rest with
      | nil => simp
      | cons l ls => simp

theorem splitLines_no_newline (s : Str) : ∀ l ∈ splitLines s, '\n' ∉ l := by
  induction s with
  | nil => intro l hl; simp [splitLines] at hl; simp [hl]
  | cons c rest ih =>
    intro l hl
    rw [splitLines] at hl
    by_cases hc : c = '\n'
    · simp only [hc, if_true] at hl
      rcases List.mem_cons.mp hl with h | h
      · simp [h]
      · exact ih l h
    · simp only [hc, if_false] at hl
      cases hr : splitLines rest with
      | nil => exact absurd hr (splitLines_ne_nil rest)
      | cons l0 ls =>
        rw [hr] at hl
        rcases List.mem_cons.mp hl with h | h
        · subst h
          intro hmem
          rcases List.mem_cons.mp hmem with h' | h'
          · exact hc h'.symm
          · exact ih l0 (hr ▸ List.mem_cons_self _ _) h'
        · exact ih l (hr ▸ List.mem_cons_of_mem _ h)

/-- Splitting a newline-free string returns the string as its only line. -/
theorem splitLines_of_no_newline (s : Str) (h : '\n' ∉ s) : splitLines s = [s] := by
  induction s with
  | nil => rfl
  | cons c rest ih =>
    have hc : ¬ c = '\n' := fun hcc => h (hcc ▸ List.mem_cons_self _ _)
    rw [splitLines]
    simp only [hc, if_false]
    rw [ih (fun hm => h (List.mem_cons_of_mem _ hm))]

theorem splitLines_append_newline (x t : Str) (hx : '\n' ∉ x) :
    splitLines (x ++ '\n' :: t) = x :: splitLines t := by
  induction x with
  | nil => simp [splitLines]
  | cons c rest ih =>
    have hc : ¬ c = '\n' := fun hcc => hx (hcc ▸ List.mem_cons_self _ _)
    rw [List.cons_append, splitLines]
    simp only [hc, if_false]
    rw [ih (fun hm => hx (List.mem_cons_of_mem _ hm))]

/-- Splitting undoes joining, for a nonempty list of newline-free lines. -/
theorem splitLines_joinLines :
    ∀ (xs : List Str), xs ≠ [] → (∀ l ∈ xs, '\n' ∉ l) →
      splitLines (joinLines xs) = xs := by
  intro xs
  induction xs with
  | nil => intro h _; exact absurd rfl h
  | cons x rest ih =>
    intro _ hnl
    cases rest with
    | nil => exact splitLines_of_no_newline x (hnl x (List.mem_cons_self _ _))
    | cons y rest2 =>
      rw [joinLines]
      rw [splitLines_append_newline x _ (hnl x (List.mem_cons_self _ _))]
      rw [ih (fun heq => List.noConfusion heq) (fun l hl => hnl l (List.mem_cons_of_mem _ hl))]
      exact fun heq => List.noConfusion heq

namespace Graph

theorem stateAfter_loops (confs : ℕ → ℚ) (init : GState) :
    ∀ k, (stateAfter confs init k).insight_loops = init.insight_loops + k := by
  intro k
  induction k with
  | zero => rfl
  | succ k ih => simp [stateAfter, solutionsNode, ih]; omega

end Graph

/-! ## Claim theorems -/
/-- C2: for every orchestrator run and confidence sequence, the Decide step
after `solutions` advances to Act iff `confidence ≥ τ` (default 0.80) or
`insight_loops ≥ maxLoops` (default 3), otherwise it returns to Diagnose;
consequently Act is reached within `maxLoops` Solve iterations even if
confidence never reaches τ. -/
theorem decide_act_iff_and_loop_termination :
    (∀ s : Graph.GState,
        (Graph.routeAfterSolutions s = Graph.GNode.actuator ↔
          (Graph.TAU ≤ s.confidence.getD 0 ∨ Graph.MAX_LOOPS ≤ s.insight_loops)) ∧
        (Graph.routeAfterSolutions s = Graph.GNode.diagnose ↔
          ¬ (Graph.TAU ≤ s.confidence.getD 0 ∨ Graph.MAX_LOOPS ≤ s.insight_loops))) ∧
    (∀ (confs : ℕ → ℚ) (c0 : Option ℚ),
        ∃ k, 1 ≤ k ∧ k ≤ Graph.MAX_LOOPS ∧
          Graph.routeAfterSolutions
            (Graph.stateAfter confs { confidence := c0, insight_loops := 0 } k) =
              Graph.GNode.actuator) := by
  constructor
  · intro s
    constructor
    · unfold Graph.routeAfterSolutions
      split_ifs with h1 h2
      · simp only [ge_iff_le] at h1
        exact ⟨fun _ => Or.inl h1, fun _ => rfl⟩
      · simp only [ge_iff_le] at h2
        exact ⟨fun _ => Or.inr h2, fun _ => rfl⟩
      · simp only [ge_iff_le] at h1 h2
        constructor
        · intro h; exact absurd h (by simp)
        · intro h
          rcases h with h | h
          · exact absurd h h1
          · exact absurd h h2
    · unfold Graph.routeAfterSolutions
      split_ifs with h1 h2
      · simp only [ge_iff_le] at h1
        constructor
        · intro h; exact absurd h (by simp)
        · intro h; exact absurd (Or.inl h1) h
      · simp only [ge_iff_le] at h2
        constructor
        · intro h; exact absurd h (by simp)
        · intro h; exact absurd (Or.inr h2) h
      · simp only [ge_iff_le] at h1 h2
        constructor
        · intro _ h
          rcases h with h | h
          · exact absurd h h1
          · exact absurd h h2
        · intro _; rfl
  · intro confs c0
    refine ⟨Graph.MAX_LOOPS, by decide, le_refl _, ?_⟩
    have hl := Graph.stateAfter_loops confs { confidence := c0, insight_loops := 0 } Graph.MAX_LOOPS
    unfold Graph.routeAfterSolutions
    split_ifs with h1 h2
    · rfl
    · rfl
    · exfalso
      apply h2
      rw [hl]
      omega

/-- C2 witness: a state at confidence 0.9 routes to Act. -/
theorem decide_act_iff_and_loop_termination_witness :
    Graph.routeAfterSolutions { confidence := some (9 / 10), insight_loops := 0 } =
      Graph.GNode.actuator :=
  (decide_act_iff_and_loop_termination.1
      { confidence := some (9 / 10), insight_loops := 0 }).1.mpr
    (Or.inl (by norm_num [Graph.TAU]))

/-- C1 counterexample: `solveFailure` takes the model-produced policy as-is
whenever its `autoSuggestionEligible` field is present (and the output
schema makes it mandatory), so the flag can be granted with confidence 0,
high risk and an empty change list — none of the claimed conditions
hold. -/
theorem model_policy_overrides_eligibility_gate :
    (Solutions.solveFailurePolicy
        (some { autoSuggestionEligible := true, reason := "model-supplied" })
        0 Solutions.Risk.high []).autoSuggestionEligible = true ∧
    ¬ (Solutions.TAU ≤ Solutions.clamp01 0) ∧
    Solutions.Risk.high ≠ Solutions.Risk.low ∧
    Solutions.realFixes ([] : List Solutions.Change) = [] := by
  refine ⟨rfl, ?_, by decide, rfl⟩
  norm_num [Solutions.TAU, Solutions.clamp01]

/-- C1 amended: the model-produced policy always wins when present; the
computed fallback of `solveFailure` grants `autoSuggestionEligible` iff
confidence ≥ τ, risk is low and at least one real fix
(`appliesCleanly ∧ ¬isNoop`) exists — it does not require every change to
apply cleanly; `normalizeSolution`'s fallback instead requires every change
to apply cleanly and no real fix at all. -/
theorem eligibility_fallback_characterization :
    (∀ (p computed : Solutions.Policy), Solutions.solutionPolicy (some p) computed = p) ∧
    (∀ (confidence : ℚ) (risk : Solutions.Risk) (validatedChanges : List Solutions.Change),
        Solutions.computedAutoSuggestionEligible confidence risk validatedChanges = true ↔
          (Solutions.TAU ≤ confidence ∧ risk = Solutions.Risk.low ∧
            ∃ c ∈ validatedChanges, Solutions.realFix c = true)) ∧
    (∀ (confidence : ℚ) (risk : Solutions.Risk) (changes : List Solutions.Change),
        Solutions.normalizeSolutionAutoEligible confidence risk changes = true ↔
          (Solutions.TAU ≤ Solutions.clamp01 confidence ∧ risk = Solutions.Risk.low ∧
            ∀ c ∈ changes, c.validation.appliesCleanly = true)) := by
  refine ⟨fun p computed => rfl, ?_, ?_⟩
  · intro confidence risk validatedChanges
    unfold Solutions.computedAutoSuggestionEligible Solutions.realFixes
    simp only [Bool.and_eq_true, decide_eq_true_eq, beq_iff_eq, ge_iff_le]
    rw [← List.countP_eq_length_filter, List.countP_pos_iff]
    tauto
  · intro confidence risk changes
    unfold Solutions.normalizeSolutionAutoEligible Solutions.validAll
    simp only [Bool.and_eq_true, decide_eq_true_eq, beq_iff_eq, ge_iff_le, List.all_eq_true]
    tauto

/-- C1 amended witness: with confidence 0.9, low risk and a single clean
non-noop change the computed fallback grants eligibility. -/
theorem eligibility_fallback_characterization_witness :
    Solutions.computedAutoSuggestionEligible (9 / 10) Solutions.Risk.low
      [{ path := "a.ts", anchor := none, hunkAfter := ['x'], language := none,
         validation := { appliesCleanly := true, isNoop := false },
         matchHint := none, type := none }] = true :=
  (eligibility_fallback_characterization.2.1 (9 / 10) Solutions.Risk.low _).mpr
    ⟨by norm_num [Solutions.TAU], rfl,
      ⟨{ path := "a.ts", anchor := none, hunkAfter := ['x'], language := none,
         validation := { appliesCleanly := true, isNoop := false },
         matchHint := none, type := none }, List.mem_singleton_self _, by decide⟩⟩

/-- The rendered review comment's line is the change's anchor line with a
fallback of 1 (solutions.ts line 675). -/
theorem reviewCommentOfChange_line (policy : Solutions.Policy) (chg : Solutions.Change) :
    (Solutions.reviewCommentOfChange policy chg).line =
      (chg.anchor.map Solutions.Anchor.line).getD 1 := by
  unfold Solutions.reviewCommentOfChange
  split_ifs <;> rfl

/-- `validateChange` never produces an anchor below line 1: resolved
anchors are guarded by the `!line || line < 1` check, and unresolved
branches keep the original anchor. -/
theorem validateChange_anchor_ge_one (env : Solutions.ResolveEnv) (ch : Solutions.Change)
    (hch : ∀ a, ch.anchor = some a → 1 ≤ a.line) :
    ∀ a, (Solutions.validateChange env ch).anchor = some a → 1 ≤ a.line := by
  intro a ha
  unfold Solutions.validateChange at ha
  cases hlk : List.lookup ch.path env.filesByPath with
  | none =>
    rw [hlk] at ha
    exact hch a ha
  | some patch =>
    rw [hlk] at ha
    dsimp only at ha
    cases hsnap : Solutions.finalSnap (env.fileContent ch.path) ch.hunkAfter
        (Solutions.resolveAnchorLine env patch (env.fileContent ch.path) ch) with
    | none =>
      rw [hsnap] at ha
      exact hch a ha
    | some l =>
      rw [hsnap] at ha
      dsimp only at ha
      by_cases hl : l < 1
      · rw [if_pos hl] at ha
        exact hch a ha
      · rw [if_neg hl] at ha
        have h2 : some ({ line := l } : Solutions.Anchor) = some a := by simpa using ha
        have h3 : a.line = l := by
          cases h2
          rfl
        omega

/-- C9: once the anchor resolver has run over a solution's changes, every
review comment built from them carries a concrete line ≥ 1 — no staged
comment has an unresolved anchor. -/
theorem staged_comments_all_anchored (env : Solutions.ResolveEnv)
    (policy : Solutions.Policy) (changes : List Solutions.Change)
    (hanch : ∀ ch ∈ changes, ∀ a, ch.anchor = some a → 1 ≤ a.line) :
    ∀ rc ∈ Solutions.reviewCommentsOf policy (Solutions.validateChanges env changes),
      1 ≤ rc.line := by
  intro rc hrc
  unfold Solutions.reviewCommentsOf Solutions.validateChanges at hrc
  rcases List.mem_map.mp hrc with ⟨vc, hvc, rfl⟩
  rcases List.mem_map.mp hvc with ⟨ch, hchm, rfl⟩
  rw [reviewCommentOfChange_line]
  have h1 := validateChange_anchor_ge_one env ch (hanch ch hchm)
  cases hac : (Solutions.validateChange env ch).anchor with
  | none => exact Nat.le_refl 1
  | some a => exact h1 a hac

/-- C9 witness: a change with no anchor and a path outside the PR still
renders with line 1. -/
theorem staged_comments_all_anchored_witness :
    1 ≤ (Solutions.reviewCommentOfChange { autoSuggestionEligible := true, reason := "" }
      (Solutions.validateChange envEmpty sampleChange)).line :=
  staged_comments_all_anchored envEmpty { autoSuggestionEligible := true, reason := "" }
    [sampleChange]
    (fun ch hch a ha => by
      rw [List.mem_singleton] at hch
      subst hch
      simp [sampleChange] at ha)
    (Solutions.reviewCommentOfChange { autoSuggestionEligible := true, reason := "" }
      (Solutions.validateChange envEmpty sampleChange))
    (List.mem_singleton_self _)

/-- C10: a proposed change whose path is not among the PR's changed files is
kept in the validated list, reclassified as a `diagnosis` with
`isNoop = true`, and is therefore not a real fix for the eligibility
policy. -/
theorem path_not_in_pr_reclassified (env : Solutions.ResolveEnv)
    (changes : List Solutions.Change) (ch : Solutions.Change)
    (hmem : ch ∈ changes) (h : List.lookup ch.path env.filesByPath = none) :
    Solutions.validateChange env ch =
      { ch with
        validation := { appliesCleanly := ch.validation.appliesCleanly, isNoop := true },
        type := some Solutions.ChangeType.diagnosis } ∧
    Solutions.realFix (Solutions.validateChange env ch) = false ∧
    Solutions.validateChange env ch ∈ Solutions.validateChanges env changes := by
  have h1 : Solutions.validateChange env ch =
      { ch with
        validation := { appliesCleanly := ch.validation.appliesCleanly, isNoop := true },
        type := some Solutions.ChangeType.diagnosis } := by
    unfold Solutions.validateChange
    rw [h]
  refine ⟨h1, ?_, List.mem_map_of_mem _ hmem⟩
  rw [h1]
  rfl

/-- C10 witness: the sample change is reclassified against the empty PR. -/
theorem path_not_in_pr_reclassified_witness :
    Solutions.validateChange envEmpty sampleChange =
      { sampleChange with
        validation := { appliesCleanly := true, isNoop := true },
        type := some Solutions.ChangeType.diagnosis } ∧
    Solutions.realFix (Solutions.validateChange envEmpty sampleChange) = false ∧
    Solutions.validateChange envEmpty sampleChange ∈
      Solutions.validateChanges envEmpty [sampleChange] :=
  path_not_in_pr_reclassified envEmpty [sampleChange] sampleChange
    (List.mem_singleton_self _) rfl

/-- C5: for a resolved anchor line, no-op detection extracts current text
spanning exactly as many lines as the proposed replacement, and compares
both sides after `normalizeBlock` (line-ending normalisation plus
whitespace-run collapsing): equality of the normalised sides yields
`isNoop = true`, and a difference in the non-whitespace tokens yields
`isNoop = false`. -/
theorem noop_detection_window_and_token_laws (full : Str) (start : ℕ) (proposed : Str) :
    (1 ≤ start →
      start - 1 + max 1 (splitLines proposed).length ≤ (splitLines full).length →
      (splitLines (Solutions.noopWindow full start proposed)).length =
        max 1 (splitLines proposed).length) ∧
    (normalizeBlock (Solutions.noopWindow full start proposed) = normalizeBlock proposed →
      Solutions.detectIsNoop full start proposed = true) ∧
    (words (Solutions.noopWindow full start proposed) ≠ words proposed →
      Solutions.detectIsNoop full start proposed = false) := by
  refine ⟨?_, ?_, ?_⟩
  · intro _ h2
    unfold Solutions.noopWindow
    dsimp only
    have hone : 1 ≤ max 1 (splitLines proposed).length := le_max_left _ _
    have hlen : (((splitLines full).drop (start - 1)).take
        (max 1 (splitLines proposed).length)).length = max 1 (splitLines proposed).length := by
      rw [List.length_take, List.length_drop]
      omega
    have hne : ((splitLines full).drop (start - 1)).take
        (max 1 (splitLines proposed).length) ≠ [] := by
      intro hx
      rw [hx] at hlen
      simp only [List.length_nil] at hlen
      omega
    have hnl : ∀ l ∈ ((splitLines full).drop (start - 1)).take
        (max 1 (splitLines proposed).length), '\n' ∉ l := by
      intro l hl
      exact splitLines_no_newline full l (List.mem_of_mem_drop (List.mem_of_mem_take hl))
    rw [splitLines_joinLines _ hne hnl, hlen]
  · intro h
    unfold Solutions.detectIsNoop
    exact beq_iff_eq.mpr h
  · intro h
    unfold Solutions.detectIsNoop
    refine beq_eq_false_iff_ne.mpr ?_
    intro heq
    exact h (by
      rw [← words_normalizeBlock (Solutions.noopWindow full start proposed), heq,
        words_normalizeBlock])

/-- C5 witness: at line 1 of `"ab\ncd"`, a proposal `"zz"` spans one line
and differs in a token, so it is not a no-op. -/
theorem noop_detection_window_and_token_laws_witness :
    (splitLines (Solutions.noopWindow ['a', 'b', '\n', 'c', 'd'] 1 ['z', 'z'])).length =
      max 1 (splitLines ['z', 'z']).length ∧
    Solutions.detectIsNoop ['a', 'b', '\n', 'c', 'd'] 1 ['z', 'z'] = false :=
  ⟨(noop_detection_window_and_token_laws ['a', 'b', '\n', 'c', 'd'] 1 ['z', 'z']).1
      (by decide) (by decide),
   (noop_detection_window_and_token_laws ['a', 'b', '\n', 'c', 'd'] 1 ['z', 'z']).2.2
      (by decide)⟩

/-- C3: staging the same (owner, repo, PR, head, body, comments) twice
yields the same deterministic `actionHash` and exactly one stored row; the
second insert's uniqueness violation is reported as success
(`already staged`), not as an error. -/
theorem staging_idempotent (sha1 : String → String) (db : List Actuator.OutboundRow)
    (owner repo : String) (pull_number : ℤ) (head_sha summaryMarkdown : String)
    (reviewComments : List Actuator.DraftComment) (installation_id : Option ℤ)
    (hfresh : ∀ r ∈ db,
      (r.action_hash ==
        stagedHash sha1 owner repo pull_number head_sha summaryMarkdown reviewComments) = false) :
    ((Actuator.stageReviewOutboxFromSolution sha1 db owner repo pull_number head_sha
        summaryMarkdown reviewComments installation_id).1.ok = true ∧
      (Actuator.stageReviewOutboxFromSolution sha1 db owner repo pull_number head_sha
        summaryMarkdown reviewComments installation_id).1.action_hash =
        some (stagedHash sha1 owner repo pull_number head_sha summaryMarkdown reviewComments)) ∧
    ((Actuator.stageReviewOutboxFromSolution sha1
        (Actuator.stageReviewOutboxFromSolution sha1 db owner repo pull_number head_sha
          summaryMarkdown reviewComments installation_id).2
        owner repo pull_number head_sha summaryMarkdown reviewComments
        installation_id).1.ok = true ∧
      (Actuator.stageReviewOutboxFromSolution sha1
        (Actuator.stageReviewOutboxFromSolution sha1 db owner repo pull_number head_sha
          summaryMarkdown reviewComments installation_id).2
        owner repo pull_number head_sha summaryMarkdown reviewComments
        installation_id).1.already = true ∧
      (Actuator.stageReviewOutboxFromSolution sha1
        (Actuator.stageReviewOutboxFromSolution sha1 db owner repo pull_number head_sha
          summaryMarkdown reviewComments installation_id).2
        owner repo pull_number head_sha summaryMarkdown reviewComments
        installation_id).1.action_hash =
        some (stagedHash sha1 owner repo pull_number head_sha summaryMarkdown reviewComments)) ∧
    Actuator.countRowsWithHash
      (Actuator.stageReviewOutboxFromSolution sha1
        (Actuator.stageReviewOutboxFromSolution sha1 db owner repo pull_number head_sha
          summaryMarkdown reviewComments installation_id).2
        owner repo pull_number head_sha summaryMarkdown reviewComments
        installation_id).2
      (stagedHash sha1 owner repo pull_number head_sha summaryMarkdown reviewComments) = 1 := by
  have hany1 : db.any (fun r => r.action_hash ==
      stagedHash sha1 owner repo pull_number head_sha summaryMarkdown reviewComments) = false := by
    cases hb : db.any (fun r => r.action_hash ==
        stagedHash sha1 owner repo pull_number head_sha summaryMarkdown reviewComments) with
    | false => rfl
    | true =>
      rcases List.any_eq_true.mp hb with ⟨r, hr, hp⟩
      rw [hfresh r hr] at hp
      cases hp
  have hhash : ∀ d : List Actuator.OutboundRow,
      (Actuator.stagedRowOf sha1 d owner repo pull_number head_sha summaryMarkdown
        reviewComments installation_id).action_hash =
        stagedHash sha1 owner repo pull_number head_sha summaryMarkdown reviewComments :=
    fun d => rfl
  have hstatus : ∀ d : List Actuator.OutboundRow,
      (Actuator.stagedRowOf sha1 d owner repo pull_number head_sha summaryMarkdown
        reviewComments installation_id).status = "staged" :=
    fun d => rfl
  unfold Actuator.stageReviewOutboxFromSolution Actuator.createOutbound
  dsimp only
  simp only [hhash, hany1, Bool.false_eq_true, if_false, List.any_append, List.any_cons,
    List.any_nil, beq_self_eq_true, Bool.or_false, Bool.false_or, Bool.or_true, if_true]
  refine ⟨⟨trivial, rfl⟩, ⟨trivial, trivial, rfl⟩, ?_⟩
  unfold Actuator.countRowsWithHash
  rw [List.filter_append]
  have hfilter : db.filter (fun r => r.action_hash ==
      stagedHash sha1 owner repo pull_number head_sha summaryMarkdown reviewComments) = [] := by
    rw [List.filter_eq_nil_iff]
    intro r hr
    rw [hfresh r hr]
    exact fun h => Bool.noConfusion h
  rw [hfilter]
  simp only [List.nil_append, List.filter_cons, hhash, beq_self_eq_true, if_true,
    List.filter_nil, List.length_cons, List.length_nil]

/-- C3 witness: staging twice against an empty outbox stores exactly one
row for the hash. -/
theorem staging_idempotent_witness :
    Actuator.countRowsWithHash
      (Actuator.stageReviewOutboxFromSolution (fun s => s)
        (Actuator.stageReviewOutboxFromSolution (fun s => s) [] "o" "r" 7 "h" "b" [] none).2
        "o" "r" 7 "h" "b" [] none).2
      (stagedHash (fun s => s) "o" "r" 7 "h" "b" []) = 1 :=
  (staging_idempotent (fun s => s) [] "o" "r" 7 "h" "b" [] none
    (fun r hr => absurd hr (List.not_mem_nil r))).2.2

/-- The reply appended by one tool-call step carries exactly the call's id
(when present): one reply per id-carrying request, budget or not. -/
theorem processToolCall_ids (exec : ToolLoop.ToolCall → String × ℕ × Bool)
    (st : ToolLoop.LoopState) (tc : ToolLoop.ToolCall) :
    (ToolLoop.processToolCall exec st tc).toolMessages.map ToolLoop.ToolMsg.tool_call_id =
      st.toolMessages.map ToolLoop.ToolMsg.tool_call_id ++ tc.id.toList := by
  unfold ToolLoop.processToolCall
  cases hid : tc.id with
  | none => simp
  | some i => simp

/-- C4 counterexample: a tool request whose `id` is absent receives no
paired `ToolMessage` at all (solutions.ts line 491 guards the reply on
`tc.id`), so not every emitted tool request gets exactly one reply. -/
theorem tool_request_without_id_left_unreplied :
    (ToolLoop.processToolCalls execStub ToolLoop.initState
        [{ name := "fetch_slice", id := none, args := "" }]).toolMessages.length = 0 ∧
    ([{ name := "fetch_slice", id := none, args := "" }] : List ToolLoop.ToolCall).length = 1 :=
  ⟨rfl, rfl⟩

/-- C4 amended: every tool request that carries an id receives exactly one
paired reply, recorded in request order — including budget-denied requests,
which receive the synthesized `budget_exhausted` placeholder; a request
without an id is the only kind left un-replied. -/
theorem tool_requests_with_id_get_exactly_one_reply :
    (∀ (exec : ToolLoop.ToolCall → String × ℕ × Bool) (st : ToolLoop.LoopState)
        (calls : List ToolLoop.ToolCall),
        (ToolLoop.processToolCalls exec st calls).toolMessages.map ToolLoop.ToolMsg.tool_call_id =
          st.toolMessages.map ToolLoop.ToolMsg.tool_call_id ++
            calls.filterMap ToolLoop.ToolCall.id) ∧
    (∀ (exec : ToolLoop.ToolCall → String × ℕ × Bool) (st : ToolLoop.LoopState)
        (tc : ToolLoop.ToolCall) (i : String),
        (ToolLoop.globalOver st || ToolLoop.perToolOver st tc.name) = true →
        tc.id = some i →
        (ToolLoop.processToolCall exec st tc).toolMessages =
          st.toolMessages ++
            [{ tool_call_id := i,
               content := ToolLoop.budgetExhaustedContent st.toolCalls st.elapsedMs
                 (ToolLoop.lookupCount st.toolCounts tc.name)
                 (ToolLoop.lookupCount st.toolTimeMs tc.name) }]) := by
  constructor
  · intro exec st calls
    induction calls generalizing st with
    | nil => simp [ToolLoop.processToolCalls]
    | cons tc rest ih =>
      rw [ToolLoop.processToolCalls, ih, processToolCall_ids]
      cases hid : tc.id with
      | none => simp [List.filterMap_cons, hid]
      | some i => simp [List.filterMap_cons, hid]
  · intro exec st tc i hover hid
    unfold ToolLoop.processToolCall
    rw [hover, hid]
    simp

/-- C4 amended witness: with the global call ceiling already reached, an
id-carrying request still gets exactly its `budget_exhausted` reply. -/
theorem tool_requests_with_id_get_exactly_one_reply_witness :
    (ToolLoop.processToolCall execStub
        { ToolLoop.initState with toolCalls := 6 }
        { name := "code_search", id := some "call_1", args := "" }).toolMessages =
      [{ tool_call_id := "call_1", content := ToolLoop.budgetExhaustedContent 6 0 0 0 }] :=
  tool_requests_with_id_get_exactly_one_reply.2 execStub
    { ToolLoop.initState with toolCalls := 6 }
    { name := "code_search", id := some "call_1", args := "" } "call_1" (by decide) rfl

/-- `validateReviewComments` is exactly a partition of the draft comments by
the demotion test: in-diff comments (side-defaulted) in order, and demoted
comments in order. -/
theorem validateReviewComments_eq_filter (byPath : List (String × Option Solutions.Patch))
    (cs : List Actuator.DraftComment) :
    Actuator.validateReviewComments byPath cs =
      ((cs.filter (fun c => !Actuator.outsideDiff byPath c)).map
          (fun c => { c with side := some (c.side.getD "RIGHT") }),
        cs.filter (Actuator.outsideDiff byPath)) := by
  induction cs with
  | nil => rfl
  | cons c rest ih =>
    rw [Actuator.validateReviewComments, ih]
    cases hlk : List.lookup c.path byPath with
    | none => simp [Actuator.outsideDiff, hlk, List.filter_cons]
    | some op =>
      cases op with
      | none => simp [Actuator.outsideDiff, hlk, List.filter_cons]
      | some patch =>
        cases hp : Actuator.parseUnifiedDiffMaxRightLine patch with
        | none => simp [Actuator.outsideDiff, hlk, hp, List.filter_cons]
        | some maxRight =>
          by_cases hr : (c.line < 1 || maxRight < c.line) = true
          · simp [Actuator.outsideDiff, hlk, hp, List.filter_cons, hr]
          · simp [Actuator.outsideDiff, hlk, hp, List.filter_cons, hr]

/-- C6: when dispatching a staged `pr_review` action, every draft comment is
checked against the re-fetched PR file patches; comments whose path is not
in the diff, whose file has no patch, or whose line lies outside the
patch's right-side range are demoted to body-level diagnostic bullets
(never dropped), and the single review-creation call carries the body
together with exactly the valid inline comments. -/
theorem dispatch_demotes_out_of_diff_comments (encode : String → String)
    (byPath : List (String × Option Solutions.Patch)) (p : Actuator.Payload) :
    (Actuator.validateReviewComments byPath p.comments =
      ((p.comments.filter (fun c => !Actuator.outsideDiff byPath c)).map
          (fun c => { c with side := some (c.side.getD "RIGHT") }),
        p.comments.filter (Actuator.outsideDiff byPath))) ∧
    ((Actuator.buildReviewRequest encode byPath p).1.comments =
      ((Actuator.buildReviewRequest encode byPath p).2.1).map
        (fun c =>
          { path := c.path, line := c.line, side := c.side.getD "RIGHT", body := c.body })) ∧
    ((Actuator.buildReviewRequest encode byPath p).2.2 ≠ [] →
      (Actuator.buildReviewRequest encode byPath p).1.body =
        p.body ++ Actuator.diagnosticsSection encode p.owner p.repo p.head_sha
          ((Actuator.buildReviewRequest encode byPath p).2.2)) ∧
    ((Actuator.buildReviewRequest encode byPath p).2.2 = [] →
      (Actuator.buildReviewRequest encode byPath p).1.body = p.body) := by
  refine ⟨validateReviewComments_eq_filter byPath p.comments, rfl, ?_, ?_⟩
  · intro h
    unfold Actuator.buildReviewRequest at h ⊢
    dsimp only at h ⊢
    have hne : (Actuator.validateReviewComments byPath p.comments).2.isEmpty = false := by
      cases hb : (Actuator.validateReviewComments byPath p.comments).2.isEmpty with
      | false => rfl
      | true => exact absurd (List.isEmpty_iff.mp hb) h
    rw [hne]
    rfl
  · intro h
    unfold Actuator.buildReviewRequest at h ⊢
    dsimp only at h ⊢
    have hem : (Actuator.validateReviewComments byPath p.comments).2.isEmpty = true :=
      List.isEmpty_iff.mpr h
    rw [hem]
    simp

/-- C6 witness: a comment anchored in the diff stays inline; a comment on a
file outside the diff is folded into the body as a diagnostic bullet. -/
theorem dispatch_demotes_out_of_diff_comments_witness :
    (Actuator.buildReviewRequest (fun s => s) [("a.ts", some [{ rightStart := 5, rightLen := some 3 }])]
        { type := "pr_review", owner := "o", repo := "r", pull_number := 1, head_sha := "sha",
          event := none, body := "B",
          comments := [{ path := "a.ts", line := 6, body := "ok", side := none },
                       { path := "b.ts", line := 2, body := "nope", side := none }] }).1.body =
      "B" ++ Actuator.diagnosticsSection (fun s => s) "o" "r" "sha"
        ((Actuator.buildReviewRequest (fun s => s) [("a.ts", some [{ rightStart := 5, rightLen := some 3 }])]
            { type := "pr_review", owner := "o", repo := "r", pull_number := 1, head_sha := "sha",
              event := none, body := "B",
              comments := [{ path := "a.ts", line := 6, body := "ok", side := none },
                           { path := "b.ts", line := 2, body := "nope", side := none }] }).2.2) :=
  (dispatch_demotes_out_of_diff_comments (fun s => s)
      [("a.ts", some [{ rightStart := 5, rightLen := some 3 }])]
      { type := "pr_review", owner := "o", repo := "r", pull_number := 1, head_sha := "sha",
        event := none, body := "B",
        comments := [{ path := "a.ts", line := 6, body := "ok", side := none },
                     { path := "b.ts", line := 2, body := "nope", side := none }] }).2.2.1
    (by decide)

/-- Dispatch bookkeeping never changes a row's id. -/
theorem expectedRowAfter_id (post : Actuator.OutboundRow → Actuator.PostOutcome)
    (r : Actuator.OutboundRow) : (Actuator.expectedRowAfter post r).id = r.id := by
  unfold Actuator.expectedRowAfter
  split_ifs
  · rfl
  · cases post r <;> rfl

theorem findById_updateById_ne (db : List Actuator.OutboundRow) (i j : ℕ)
    (v : Actuator.OutboundRow) (hv : v.id = i) (hne : j ≠ i) :
    Actuator.findById (Actuator.updateById db i v) j = Actuator.findById db j := by
  induction db with
  | nil => rfl
  | cons r rest ih =>
    unfold Actuator.updateById Actuator.findById at ih ⊢
    simp only [List.map_cons]
    by_cases hr : r.id = i
    · rw [if_pos hr]
      rw [List.find?_cons_of_neg _ (by simp [hv, Ne.symm hne]),
        List.find?_cons_of_neg _ (by simp [hr, Ne.symm hne])]
      exact ih
    · rw [if_neg hr]
      by_cases hj : r.id = j
      · rw [List.find?_cons_of_pos _ (by simp [hj]), List.find?_cons_of_pos _ (by simp [hj])]
      · rw [List.find?_cons_of_neg _ (by simp [hj]), List.find?_cons_of_neg _ (by simp [hj])]
        exact ih

theorem findById_updateById_self (db : List Actuator.OutboundRow) (i : ℕ)
    (v : Actuator.OutboundRow) (hv : v.id = i) (r0 : Actuator.OutboundRow)
    (hfound : Actuator.findById db i = some r0) :
    Actuator.findById (Actuator.updateById db i v) i = some v := by
  induction db with
  | nil => cases hfound
  | cons r rest ih =>
    unfold Actuator.updateById Actuator.findById at ih ⊢
    unfold Actuator.findById at hfound
    simp only [List.map_cons]
    by_cases hr : r.id = i
    · rw [if_pos hr]
      rw [List.find?_cons_of_pos _ (by simp [hv])]
    · rw [if_neg hr]
      rw [List.find?_cons_of_neg _ (by simp [hr])] at hfound ⊢
      exact ih hfound

theorem findById_of_mem_nodup (db : List Actuator.OutboundRow)
    (hids : (db.map Actuator.OutboundRow.id).Nodup) (r : Actuator.OutboundRow)
    (hr : r ∈ db) : Actuator.findById db r.id = some r := by
  induction db with
  | nil => cases hr
  | cons h rest ih =>
    rw [List.map_cons, List.nodup_cons] at hids
    rcases List.mem_cons.mp hr with heq | hmem
    · subst heq
      unfold Actuator.findById
      rw [List.find?_cons_of_pos _ (by simp)]
    · unfold Actuator.findById
      by_cases hh : h.id = r.id
      · exact absurd (hh ▸ List.mem_map_of_mem Actuator.OutboundRow.id hmem) hids.1
      · rw [List.find?_cons_of_neg _ (by simp [hh])]
        exact ih hids.2 hmem

theorem dispatchBatchGo_cons (post : Actuator.OutboundRow → Actuator.PostOutcome)
    (r : Actuator.OutboundRow) (rest : List Actuator.OutboundRow)
    (acc : List Actuator.DispatchItemResult) (db : List Actuator.OutboundRow) :
    Actuator.dispatchBatchGo post (r :: rest) acc db =
      Actuator.dispatchBatchGo post rest (acc ++ [Actuator.expectedItemResult post r])
        (dbAfterOne post r db) := by
  rw [Actuator.dispatchBatchGo]
  unfold Actuator.dispatchOneOutboundAction Actuator.expectedItemResult dbAfterOne
    Actuator.expectedRowAfter
  by_cases hty : (r.action_type != "pr_review") = true
  · simp only [hty, if_true]
  · have hty2 : (r.action_type != "pr_review") = false := by
      cases hb : (r.action_type != "pr_review")
      · rfl
      · exact absurd hb hty
    simp only [hty2, Bool.false_eq_true, if_false]
    cases hpost : post r <;> rfl

theorem findById_dbAfterOne_ne (post : Actuator.OutboundRow → Actuator.PostOutcome)
    (r : Actuator.OutboundRow) (db : List Actuator.OutboundRow) (j : ℕ) (hne : j ≠ r.id) :
    Actuator.findById (dbAfterOne post r db) j = Actuator.findById db j := by
  unfold dbAfterOne
  split_ifs
  · rfl
  · exact findById_updateById_ne db r.id j _ (expectedRowAfter_id post r) hne

theorem findById_dbAfterOne_self (post : Actuator.OutboundRow → Actuator.PostOutcome)
    (r : Actuator.OutboundRow) (db : List Actuator.OutboundRow)
    (hfound : Actuator.findById db r.id = some r) :
    Actuator.findById (dbAfterOne post r db) r.id = some (Actuator.expectedRowAfter post r) := by
  unfold dbAfterOne
  by_cases hty : (r.action_type != "pr_review") = true
  · rw [if_pos hty, hfound]
    unfold Actuator.expectedRowAfter
    rw [if_pos hty]
  · rw [if_neg hty]
    exact findById_updateById_self db r.id _ (expectedRowAfter_id post r) r hfound

/-- The batch loop's results and row updates are pointwise: each processed
row's result and final state depend only on that row's own outcome, and
rows outside the batch are untouched. -/
theorem dispatchBatchGo_spec (post : Actuator.OutboundRow → Actuator.PostOutcome)
    (rows : List Actuator.OutboundRow) :
    ∀ (acc : List Actuator.DispatchItemResult) (db : List Actuator.OutboundRow),
      (rows.map Actuator.OutboundRow.id).Nodup →
      ((Actuator.dispatchBatchGo post rows acc db).1 =
        acc ++ rows.map (Actuator.expectedItemResult post) ∧
      (∀ j, j ∉ rows.map Actuator.OutboundRow.id →
        Actuator.findById (Actuator.dispatchBatchGo post rows acc db).2 j =
          Actuator.findById db j) ∧
      (∀ r ∈ rows, Actuator.findById db r.id = some r →
        Actuator.findById (Actuator.dispatchBatchGo post rows acc db).2 r.id =
          some (Actuator.expectedRowAfter post r))) := by
  induction rows with
  | nil =>
    intro acc db _
    exact ⟨by simp [Actuator.dispatchBatchGo], fun j _ => rfl,
      fun r hr => absurd hr (List.not_mem_nil r)⟩
  | cons r rest ih =>
    intro acc db hnd
    rw [List.map_cons, List.nodup_cons] at hnd
    rw [dispatchBatchGo_cons]
    obtain ⟨ih1, ih2, ih3⟩ :=
      ih (acc ++ [Actuator.expectedItemResult post r]) (dbAfterOne post r db) hnd.2
    refine ⟨?_, ?_, ?_⟩
    · rw [ih1]
      simp [List.append_assoc]
    · intro j hj
      simp only [List.map_cons, List.mem_cons, not_or] at hj
      rw [ih2 j hj.2]
      exact findById_dbAfterOne_ne post r db j hj.1
    · intro r2 hr2 hfound
      rcases List.mem_cons.mp hr2 with heq | hmem
      · subst heq
        rw [ih2 r2.id hnd.1]
        exact findById_dbAfterOne_self post r2 db hfound
      · refine ih3 r2 hmem ?_
        rw [findById_dbAfterOne_ne post r db r2.id ?_]
        · exact hfound
        · intro heq
          exact hnd.1 (heq ▸ List.mem_map_of_mem Actuator.OutboundRow.id hmem)

/-- `selectStaged` picks a sublist of the db. -/
theorem selectStaged_sublist (db : List Actuator.OutboundRow) (limit : ℕ) :
    (Actuator.selectStaged db limit).Sublist db :=
  (List.take_sublist _ _).trans (List.filter_sublist db)

/-- C7: in a dispatch batch each staged item is processed independently: the
per-item results are exactly one per selected row; a row whose dispatch
fails or throws ends `status = error` with its attempt count incremented
and the error text truncated, while every other row is still dispatched
according to its own outcome, and unselected rows are untouched. -/
theorem dispatch_batch_isolation (post : Actuator.OutboundRow → Actuator.PostOutcome)
    (db : List Actuator.OutboundRow) (limit : ℕ)
    (hids : (db.map Actuator.OutboundRow.id).Nodup) :
    ((Actuator.dispatchBatch post db limit).1 =
      (Actuator.selectStaged db limit).map (Actuator.expectedItemResult post)) ∧
    (∀ r ∈ Actuator.selectStaged db limit,
      Actuator.findById (Actuator.dispatchBatch post db limit).2 r.id =
        some (Actuator.expectedRowAfter post r)) ∧
    (∀ j, j ∉ (Actuator.selectStaged db limit).map Actuator.OutboundRow.id →
      Actuator.findById (Actuator.dispatchBatch post db limit).2 j =
        Actuator.findById db j) ∧
    (∀ (r : Actuator.OutboundRow) (msg : String), post r = Actuator.PostOutcome.failure msg →
      Actuator.expectedRowAfter post r =
        (if r.action_type != "pr_review" then r
         else { r with
                status := "error"
                attempt_count := r.attempt_count + 1
                last_error := some (msg.take 1000) })) := by
  have hsub : (Actuator.selectStaged db limit).Sublist db := selectStaged_sublist db limit
  have hnd : ((Actuator.selectStaged db limit).map Actuator.OutboundRow.id).Nodup :=
    (hsub.map Actuator.OutboundRow.id).nodup hids
  obtain ⟨h1, h2, h3⟩ := dispatchBatchGo_spec post (Actuator.selectStaged db limit) [] db hnd
  refine ⟨by simpa using h1, ?_, h2, ?_⟩
  · intro r hr
    exact h3 r hr (findById_of_mem_nodup db hids r (hsub.subset hr))
  · intro r msg hpost
    unfold Actuator.expectedRowAfter Actuator.markError
    split_ifs with hty
    · rfl
    · rw [hpost]

/-- C7 witness: with item 2 throwing, items 1 and 3 are still dispatched and
item 2 is marked `error` with an incremented attempt count. -/
theorem dispatch_batch_isolation_witness :
    Actuator.findById
        (Actuator.dispatchBatch batchPost [rowStaged 1, rowStaged 2, rowStaged 3] 5).2 2 =
      some (Actuator.expectedRowAfter batchPost (rowStaged 2)) ∧
    Actuator.findById
        (Actuator.dispatchBatch batchPost [rowStaged 1, rowStaged 2, rowStaged 3] 5).2 3 =
      some (Actuator.expectedRowAfter batchPost (rowStaged 3)) :=
  ⟨(dispatch_batch_isolation batchPost [rowStaged 1, rowStaged 2, rowStaged 3] 5
      (by decide)).2.1 (rowStaged 2) (by decide),
   (dispatch_batch_isolation batchPost [rowStaged 1, rowStaged 2, rowStaged 3] 5
      (by decide)).2.1 (rowStaged 3) (by decide)⟩

/-- C8 counterexample: retry is not exclusive to the log-download path — a
transient error on a `logBuildFailure` DB insert is retried (two insert
attempts, then success), and the LLM chat clients are configured with
client-level retries (`maxRetries: 2` for the tool loop, `1` for the final
structured call). -/
theorem non_log_download_call_retries :
    Tidb.logBuildFailure dbInsertOutcome0 = Except.ok 2 ∧
    Retry.solveLoopChatParams.maxRetries = 2 ∧
    Retry.finalChatParams.maxRetries = 1 := by
  refine ⟨rfl, rfl, rfl⟩

/-- One step of the download retry loop. -/
theorem downloadGo_step (oracle : ℕ → Except Retry.GhError Retry.Buf) (jitter : ℕ → ℕ)
    (attempt fuel : ℕ) :
    Retry.downloadGo oracle jitter attempt (fuel + 1) =
      (match Retry.downloadAttemptResult oracle attempt with
       | Except.ok buf => (Except.ok buf, [])
       | Except.error e =>
         if !Retry.isTransientGitHubError e || attempt == Retry.LOG_MAX_RETRIES
         then (Except.error e, [])
         else ((Retry.downloadGo oracle jitter (attempt + 1) fuel).1,
           Retry.computeBackoff jitter attempt ::
             (Retry.downloadGo oracle jitter (attempt + 1) fuel).2)) := rfl

/-- One step of the `logBuildFailure` insert loop. -/
theorem logBuildFailureGo_step (insertOutcome : ℕ → Option Tidb.DbErr) (attempt fuel : ℕ) :
    Tidb.logBuildFailureGo insertOutcome attempt (fuel + 1) =
      (match insertOutcome attempt with
       | none => Except.ok (attempt + 1)
       | some e =>
         if !Tidb.isTransient e || (attempt + 1) ≥ Tidb.MAX_RETRIES then Except.error e
         else Tidb.logBuildFailureGo insertOutcome (attempt + 1) fuel) := rfl

/-- C8 amended: the log-download path retries with exponential backoff plus
jitter, up to 3 attempts, and only on transient-classified errors — an
immediate success or a non-transient first error ends the loop with no
delay, a transient first error is retried after `1000·2⁰ + jitter` ms, and
after two transient failures the third attempt's outcome is final either
way.  But other external calls are not all fail-fast: a transient DB error
in `logBuildFailure` is retried, and the LLM clients carry `maxRetries`
2 and 1. -/
theorem log_download_retry_policy :
    (∀ (oracle : ℕ → Except Retry.GhError Retry.Buf) (jitter : ℕ → ℕ) (buf : Retry.Buf),
        Retry.downloadAttemptResult oracle 1 = Except.ok buf →
        Retry.downloadLogsZipWithRetry oracle jitter = (Except.ok buf, [])) ∧
    (∀ (oracle : ℕ → Except Retry.GhError Retry.Buf) (jitter : ℕ → ℕ) (e : Retry.GhError),
        Retry.downloadAttemptResult oracle 1 = Except.error e →
        Retry.isTransientGitHubError e = false →
        Retry.downloadLogsZipWithRetry oracle jitter = (Except.error e, [])) ∧
    (∀ (oracle : ℕ → Except Retry.GhError Retry.Buf) (jitter : ℕ → ℕ) (e : Retry.GhError)
        (buf : Retry.Buf),
        Retry.downloadAttemptResult oracle 1 = Except.error e →
        Retry.isTransientGitHubError e = true →
        Retry.downloadAttemptResult oracle 2 = Except.ok buf →
        Retry.downloadLogsZipWithRetry oracle jitter =
          (Except.ok buf, [Retry.computeBackoff jitter 1])) ∧
    (∀ (oracle : ℕ → Except Retry.GhError Retry.Buf) (jitter : ℕ → ℕ)
        (e1 e2 : Retry.GhError),
        Retry.downloadAttemptResult oracle 1 = Except.error e1 →
        Retry.isTransientGitHubError e1 = true →
        Retry.downloadAttemptResult oracle 2 = Except.error e2 →
        Retry.isTransientGitHubError e2 = true →
        Retry.downloadLogsZipWithRetry oracle jitter =
          ((Retry.downloadAttemptResult oracle 3).map id,
            [Retry.computeBackoff jitter 1, Retry.computeBackoff jitter 2])) ∧
    (∀ (jitter : ℕ → ℕ) (attempt : ℕ),
        Retry.computeBackoff jitter attempt =
          Retry.LOG_RETRY_BASE_MS * 2 ^ (attempt - 1) + jitter attempt) ∧
    (∀ (insertOutcome : ℕ → Option Tidb.DbErr) (e : Tidb.DbErr),
        insertOutcome 0 = some e → Tidb.isTransient e = true → insertOutcome 1 = none →
        Tidb.logBuildFailure insertOutcome = Except.ok 2) ∧
    Retry.solveLoopChatParams.maxRetries = 2 ∧
    Retry.finalChatParams.maxRetries = 1 := by
  refine ⟨?_, ?_, ?_, ?_, fun jitter attempt => rfl, ?_, rfl, rfl⟩
  · intro oracle jitter buf h1
    unfold Retry.downloadLogsZipWithRetry
    rw [show Retry.LOG_MAX_RETRIES = 2 + 1 from rfl, downloadGo_step, h1]
  · intro oracle jitter e h1 htr
    unfold Retry.downloadLogsZipWithRetry
    rw [show Retry.LOG_MAX_RETRIES = 2 + 1 from rfl, downloadGo_step, h1]
    simp [htr]
  · intro oracle jitter e buf h1 htr h2
    unfold Retry.downloadLogsZipWithRetry
    rw [show Retry.LOG_MAX_RETRIES = 2 + 1 from rfl, downloadGo_step, h1]
    simp only [htr, Bool.not_true, Bool.false_or]
    rw [show ((1 : ℕ) == Retry.LOG_MAX_RETRIES) = false from rfl]
    simp only [Bool.false_eq_true, if_false]
    rw [show (2 : ℕ) = 1 + 1 from rfl, downloadGo_step, h2]
  · intro oracle jitter e1 e2 h1 htr1 h2 htr2
    unfold Retry.downloadLogsZipWithRetry
    rw [show Retry.LOG_MAX_RETRIES = 2 + 1 from rfl, downloadGo_step, h1]
    simp only [htr1, Bool.not_true, Bool.false_or]
    rw [show ((1 : ℕ) == Retry.LOG_MAX_RETRIES) = false from rfl]
    simp only [Bool.false_eq_true, if_false]
    rw [show (2 : ℕ) = 1 + 1 from rfl, downloadGo_step, h2]
    simp only [htr2, Bool.not_true, Bool.false_or]
    rw [show ((2 : ℕ) == Retry.LOG_MAX_RETRIES) = false from rfl]
    simp only [Bool.false_eq_true, if_false]
    rw [show (1 : ℕ) = 0 + 1 from rfl, downloadGo_step]
    cases h3 : Retry.downloadAttemptResult oracle 3 with
    | ok buf => simp [h3]
    | error e3 =>
      rw [show ((3 : ℕ) == Retry.LOG_MAX_RETRIES) = true from rfl]
      simp [h3]
  · intro insertOutcome e h0 htr h1
    unfold Tidb.logBuildFailure
    rw [show Tidb.MAX_RETRIES = 2 + 1 from rfl, logBuildFailureGo_step, h0]
    dsimp only
    split_ifs with hc
    · rw [htr] at hc
      simp [Tidb.MAX_RETRIES] at hc
    · rw [show (2 : ℕ) = 1 + 1 from rfl, logBuildFailureGo_step, h1]

/-- C8 amended witness: a transient 503 on attempt 1 is retried once with
backoff `1000·2⁰ + jitter`, and attempt 2's archive is returned. -/
theorem log_download_retry_policy_witness :
    Retry.downloadLogsZipWithRetry dlOracle0 (fun _ => 7) =
      (Except.ok [1], [Retry.computeBackoff (fun _ => 7) 1]) :=
  log_download_retry_policy.2.2.1 dlOracle0 (fun _ => 7)
    { status := some 503, code := none, message := "Service Unavailable" } [1] rfl rfl rfl

end ResolvCI
